import Mathlib

/-!
Verification development for the SimpleDownloadServer repository (hdl_sv).

The Rust sources are shallowly embedded: strings are lists of Unicode scalar
values (`Str`), byte buffers are lists of naturals below 256, machine-integer
arithmetic is `Nat` with explicit `% 2^64` where the Rust `u64` can wrap
(release-build semantics), and fallible operations return `Except`/`Option`.
Filesystem and socket effects are made explicit: the filesystem is a record of
total functions passed to the routing code, and the byte stream written to a
socket is returned as a list of write events.
-/

instance {ε α : Type} [DecidableEq ε] [DecidableEq α] : DecidableEq (Except ε α) := fun x y =>
  match x, y with
  | .ok a, .ok b =>
    if h : a = b then .isTrue (by rw [h]) else .isFalse (fun hc => h (Except.ok.inj hc))
  | .error a, .error b =>
    if h : a = b then .isTrue (by rw [h]) else .isFalse (fun hc => h (Except.error.inj hc))
  | .ok _, .error _ => .isFalse (fun hc => Except.noConfusion hc)
  | .error _, .ok _ => .isFalse (fun hc => Except.noConfusion hc)

/-- Rust `String`/`&str` values, as their sequence of Unicode scalar values. -/
abbrev Str := List Nat

/-- Convenience conversion from a Lean string literal to `Str`. -/
def str (s : String) : Str := s.data.map Char.toNat

/-- `u64` wrap-around (Rust release-build overflow semantics). -/
def wrap64 (n : Nat) : Nat := n % 2 ^ 64

/-- A Unicode scalar value, i.e. a value accepted by Rust `char::from_u32`. -/
def validScalar (n : Nat) : Bool := n < 0x110000 && !(0xD800 ≤ n && n ≤ 0xDFFF)

/-- ASCII decimal digit test. -/
def isDigitCode (c : Nat) : Bool := 48 ≤ c && c ≤ 57

/-- Value of an ASCII hex digit, as accepted by Rust `u8::from_str_radix(_, 16)`. -/
def hexVal (c : Nat) : Option Nat :=
  if 48 ≤ c && c ≤ 57 then some (c - 48)
  else if 97 ≤ c && c ≤ 102 then some (c - 97 + 10)
  else if 65 ≤ c && c ≤ 70 then some (c - 65 + 10)
  else none

/-- Rust `u8::from_str_radix(&format!("{h1}{h2}"), 16)` for the two characters
the URL decoder feeds it.  `from_str_radix` on an unsigned type accepts an
optional leading `+` sign followed by at least one digit; a two-character
input therefore parses when it is either two hex digits or `+` followed by
one hex digit.  (Non-ASCII characters contribute bytes ≥ 0x80, which are
never digits, so working on the two scalars is faithful.) -/
def parseHexByte (h1 h2 : Nat) : Option Nat :=
  if h1 = 43 then hexVal h2
  else match hexVal h1, hexVal h2 with
    | some v1, some v2 => some (v1 * 16 + v2)
    | _, _ => none

/-- The error enum of `src/error.rs` (`AppError`).  Payloads that the claims
never inspect (`io::Error`, glob and address parse errors) are dropped. -/
inductive AppError where
  | Io
  | Glob
  | AddrParse
  | InvalidPath
  | DirectoryNotFound (path : Str)
  | Forbidden
  | NotFound
  | BadRequest
  | Unauthorized
  | MethodNotAllowed
  | InternalServerError (msg : Str)
  deriving DecidableEq, Repr

/-- `Request::decode_url` from `src/http.rs` (lines 147-178): percent-decoding
of the raw request path.  A `%` must be followed by two characters (otherwise
`chars.next().ok_or(AppError::BadRequest)?` fails the request); if those two
characters parse as a base-16 `u8` the decoded character is pushed, otherwise
`%` and both characters are pushed literally.  `char::from_u32` of a byte
value never fails, but the source checks it, so the model does too. -/
def decode_url : Str → Except AppError Str
  | [] => .ok []
  | 37 :: h1 :: h2 :: rest =>
    match parseHexByte h1 h2 with
    | some v =>
      (fun d => (if validScalar v then [v] else [37, h1, h2]) ++ d) <$> decode_url rest
    | none => (fun d => 37 :: h1 :: h2 :: d) <$> decode_url rest
  | [37] => .error .BadRequest
  | [37, _] => .error .BadRequest
  | c :: rest => (fun d => c :: d) <$> decode_url rest

example : decode_url (str "/a%20b") = .ok (str "/a b") := by decide
example : decode_url (str "%zz") = .ok (str "%zz") := by decide
example : decode_url (str "%") = .error .BadRequest := by decide
example : decode_url (str "%4") = .error .BadRequest := by decide
example : decode_url (str "%+5") = .ok [5] := by decide

/-! ### Decimal formatting and parsing (`format!("{}")` / `u64::from_str`)

Recursive helpers take an explicit fuel argument (always called with enough
fuel, as the stability lemmas show) so that every definition is structurally
recursive and evaluates inside the kernel. -/

def natDigitsF : Nat → Nat → Str
  | 0, _ => []
  | f + 1, n => if n < 10 then [n + 48] else natDigitsF f (n / 10) ++ [n % 10 + 48]

/-- Decimal digit string of a natural number, as Rust `Display` for unsigned
integers prints it. -/
def natDigits (n : Nat) : Str := natDigitsF (n + 1) n

theorem natDigitsF_stable : ∀ f g n : Nat, n < f → n < g → natDigitsF f n = natDigitsF g n := by
  intro f
  induction f with
  | zero => intro g n hf _; omega
  | succ f ih =>
    intro g n hf hg
    cases g with
    | zero => omega
    | succ g =>
      simp only [natDigitsF]
      split
      · rfl
      · rename_i hn
        rw [ih g (n / 10) (by omega) (by omega)]

theorem natDigits_eq (n : Nat) :
    natDigits n = if n < 10 then [n + 48] else natDigits (n / 10) ++ [n % 10 + 48] := by
  by_cases h : n < 10
  · rw [if_pos h]
    unfold natDigits
    simp only [natDigitsF]
    rw [if_pos h]
  · rw [if_neg h]
    have hstep : natDigitsF (n + 1) n = natDigitsF n (n / 10) ++ [n % 10 + 48] := by
      simp only [natDigitsF]
      rw [if_neg h]
    unfold natDigits
    rw [hstep, natDigitsF_stable n (n / 10 + 1) (n / 10) (by omega) (by omega)]

/-- Strips one leading `+` sign, as integer `FromStr` does for unsigned types. -/
def stripPlus (s : Str) : Str :=
  match s with
  | 43 :: rest => rest
  | _ => s

/-- `u64::from_str` (`str::parse::<u64>`): an optional leading `+` sign, then
one or more decimal digits, value below `2^64`. -/
def parseU64 (s : Str) : Option Nat :=
  let digits := stripPlus s
  if digits.isEmpty then none
  else if digits.all isDigitCode then
    let v := digits.foldl (fun a c => a * 10 + (c - 48)) 0
    if v < 2 ^ 64 then some v else none
  else none

theorem natDigits_ne_nil (n : Nat) : natDigits n ≠ [] := by
  rw [natDigits_eq]
  split
  · simp
  · simp

theorem natDigits_mem_digit (n : Nat) : ∀ c ∈ natDigits n, 48 ≤ c ∧ c ≤ 57 := by
  induction n using Nat.strong_induction_on with
  | _ n ih =>
    rw [natDigits_eq]
    split
    · intro c hc
      simp only [List.mem_singleton] at hc
      omega
    · rename_i hn
      intro c hc
      rcases List.mem_append.1 hc with h1 | h1
      · exact ih (n / 10) (by omega) c h1
      · simp only [List.mem_singleton] at h1
        omega

theorem natDigits_foldl (n : Nat) :
    ∀ s : Nat, (natDigits n).foldl (fun a c => a * 10 + (c - 48)) s
      = s * 10 ^ (natDigits n).length + n := by
  induction n using Nat.strong_induction_on with
  | _ n ih =>
    intro s
    rw [natDigits_eq]
    split
    · rename_i h
      simp only [List.foldl_cons, List.foldl_nil, List.length_singleton]
      omega
    · rename_i h
      simp only [List.foldl_append, List.foldl_cons, List.foldl_nil,
        List.length_append, List.length_singleton]
      rw [ih (n / 10) (by omega) s]
      have hmod : n % 10 + 48 - 48 = n % 10 := by omega
      rw [hmod, pow_succ]
      have hdm : n / 10 * 10 + n % 10 = n := by omega
      calc (s * 10 ^ (natDigits (n / 10)).length + n / 10) * 10 + n % 10
          = s * (10 ^ (natDigits (n / 10)).length * 10) + (n / 10 * 10 + n % 10) := by ring
        _ = s * (10 ^ (natDigits (n / 10)).length * 10) + n := by rw [hdm]

theorem stripPlus_cons_ne (c : Nat) (cs : Str) (h : c ≠ 43) : stripPlus (c :: cs) = c :: cs := by
  unfold stripPlus
  split
  · next rest heq =>
    exact absurd (List.cons.inj heq).1 h
  · rfl

theorem parseU64_natDigits (n : Nat) (h : n < 2 ^ 64) : parseU64 (natDigits n) = some n := by
  have hne := natDigits_ne_nil n
  have hdig := natDigits_mem_digit n
  have hstrip : stripPlus (natDigits n) = natDigits n := by
    obtain ⟨c, cs, hcs⟩ := List.exists_cons_of_ne_nil hne
    have hc : 48 ≤ c ∧ c ≤ 57 := hdig c (by rw [hcs]; exact List.mem_cons_self c cs)
    rw [hcs]
    exact stripPlus_cons_ne c cs (by omega)
  have hie : (natDigits n).isEmpty = false := by
    simp [List.isEmpty_iff, hne]
  have hall : (natDigits n).all isDigitCode = true := by
    rw [List.all_eq_true]
    intro c hcm
    have := hdig c hcm
    simp only [isDigitCode, Bool.and_eq_true, decide_eq_true_eq]
    omega
  have hfold := natDigits_foldl n 0
  unfold parseU64
  rw [hstrip]
  simp only [hie, Bool.false_eq_true, if_false, hall, if_true, hfold]
  simp only [Nat.zero_mul, Nat.zero_add]
  rw [if_pos h]

/-! ### `str::split(char)` and `str::trim_start_matches` -/

/-- Rust `str::split(sep)`: splits on every occurrence of `sep`, keeping empty
parts, always yielding at least one part. -/
def splitChar (sep : Nat) : Str → List Str
  | [] => [[]]
  | c :: cs =>
    if c = sep then [] :: splitChar sep cs
    else
      match splitChar sep cs with
      | h :: t => (c :: h) :: t
      | [] => [[c]]

theorem splitChar_ne_nil (sep : Nat) (s : Str) : splitChar sep s ≠ [] := by
  cases s with
  | nil => simp [splitChar]
  | cons c cs =>
    simp only [splitChar]
    split
    · simp
    · split
      · simp
      · simp

theorem splitChar_not_mem (sep : Nat) (s : Str) (h : sep ∉ s) : splitChar sep s = [s] := by
  induction s with
  | nil => rfl
  | cons c cs ih =>
    have hc : c ≠ sep := fun hc => h (hc ▸ List.mem_cons_self c cs)
    have hcs : sep ∉ cs := fun hm => h (List.mem_cons_of_mem c hm)
    simp only [splitChar, if_neg hc, ih hcs]

theorem splitChar_append_sep (sep : Nat) (xs ys : Str) (h : sep ∉ xs) :
    splitChar sep (xs ++ sep :: ys) = xs :: splitChar sep ys := by
  induction xs with
  | nil => simp [splitChar]
  | cons c cs ih =>
    have hc : c ≠ sep := fun hc => h (hc ▸ List.mem_cons_self c cs)
    have hcs : sep ∉ cs := fun hm => h (List.mem_cons_of_mem c hm)
    have ihh := ih hcs
    simp only [List.cons_append, splitChar, if_neg hc, List.append_eq, ihh]

def trimStartMatchesF : Nat → Str → Str → Str
  | 0, _, s => s
  | f + 1, pre, s =>
    if pre ≠ [] ∧ pre.isPrefixOf s then trimStartMatchesF f pre (s.drop pre.length) else s

/-- Rust `str::trim_start_matches(pre)`: repeatedly removes the prefix `pre`
while it matches. -/
def trimStartMatches (pre s : Str) : Str := trimStartMatchesF (s.length + 1) pre s

theorem trimStartMatchesF_stable :
    ∀ f g pre s, s.length < f → s.length < g →
      trimStartMatchesF f pre s = trimStartMatchesF g pre s := by
  intro f
  induction f with
  | zero => intro g pre s hf _; omega
  | succ f ih =>
    intro g pre s hf hg
    cases g with
    | zero => omega
    | succ g =>
      simp only [trimStartMatchesF]
      split
      · rename_i hcond
        have hpre : pre <+: s := List.isPrefixOf_iff_prefix.1 hcond.2
        have hlen : pre.length ≤ s.length := hpre.length_le
        have hpos : 0 < pre.length := List.length_pos.2 hcond.1
        have hd : (s.drop pre.length).length < s.length := by
          simp only [List.length_drop]
          omega
        exact ih g pre (s.drop pre.length) (by omega) (by omega)
      · rfl

theorem trimStartMatches_eq (pre s : Str) :
    trimStartMatches pre s =
      if pre ≠ [] ∧ pre.isPrefixOf s then trimStartMatches pre (s.drop pre.length) else s := by
  unfold trimStartMatches
  simp only [trimStartMatchesF]
  split
  · rename_i hcond
    have hpre : pre <+: s := List.isPrefixOf_iff_prefix.1 hcond.2
    have hlen : pre.length ≤ s.length := hpre.length_le
    have hpos : 0 < pre.length := List.length_pos.2 hcond.1
    exact trimStartMatchesF_stable s.length ((s.drop pre.length).length + 1) pre
      (s.drop pre.length) (by simp only [List.length_drop]; omega) (by omega)
  · rfl

theorem trimStartMatches_step (pre s : Str) (hne : pre ≠ []) (hp : pre.isPrefixOf s) :
    trimStartMatches pre s = trimStartMatches pre (s.drop pre.length) := by
  rw [trimStartMatches_eq]
  simp [hne, hp]

theorem trimStartMatches_no_match (pre s : Str) (hnp : ¬ pre.isPrefixOf s) :
    trimStartMatches pre s = s := by
  rw [trimStartMatches_eq]
  simp [hnp]

/-! ### `serve_file` from `src/main.rs` (lines 488-941)

The observable behaviour is the sequence of writes on the socket: the header
block string, streamed file chunks, and any complete error responses sent via
main.rs `send_response`.  `u64` arithmetic wraps as in a release build. -/

/-- `u64` wrapping subtraction (for operands below `2^64`). -/
def sub64 (a b : Nat) : Nat := (a + 2 ^ 64 - b) % 2 ^ 64

/-- One write made by main.rs `serve_file` on the client socket. -/
inductive WriteEvent where
  | headerBlock (s : Str)
  | fileChunk (bytes : List Nat)
  | errorResponse (status : Nat) (text : Str)
  deriving DecidableEq, Repr

/-- The `206 Partial Content` header block format string of main.rs
`serve_file` (line 734), including its stray space before `Accept-Ranges`. -/
def http206Header (startB endB size : Nat) (filename : Str) : Str :=
  str "HTTP/1.1 206 Partial Content\r\nContent-Range: bytes " ++
    natDigits startB ++ str "-" ++ natDigits endB ++ str "/" ++ natDigits size ++
    str "\r\nContent-Disposition: attachment; filename=\"" ++ filename ++
    str "\"\r\nContent-Length: " ++ natDigits (wrap64 (sub64 endB startB + 1)) ++
    str "\r\nContent-Type: application/octet-stream\r\n Accept-Ranges: bytes\r\n\r\n"

/-- The `200 OK` header block format string of main.rs `serve_file`
(line 749). -/
def http200Header (size : Nat) (filename : Str) : Str :=
  str "HTTP/1.1 200 OK\r\nContent-Disposition: attachment; filename=\"" ++ filename ++
    str "\"\r\nContent-Length: " ++ natDigits size ++
    str "\r\nContent-Type: application/octet-stream\r\n Accept-Ranges: bytes\r\n\r\n"

def streamChunksF (content : List Nat) (chunkSize : Nat) : Nat → Nat → Nat → List (List Nat)
  | _, _, 0 => []
  | pos, remaining, f + 1 =>
    if remaining = 0 then []
    else
      let toRead := min remaining chunkSize
      let k := min toRead (content.length - pos)
      if k = 0 then []
      else ((content.drop pos).take k) :: streamChunksF content chunkSize (pos + k) (remaining - k) f

/-- The chunked streaming loop of main.rs `serve_file` (lines 848-933): read at
most `min remaining chunkSize` bytes from the current file position, stop at
end of file, count down `remaining`. -/
def streamChunks (content : List Nat) (pos remaining chunkSize : Nat) : List (List Nat) :=
  streamChunksF content chunkSize pos remaining (remaining + 1)

theorem streamChunksF_stable (content : List Nat) (chunkSize : Nat) :
    ∀ f g pos remaining, remaining < f → remaining < g →
      streamChunksF content chunkSize pos remaining f
        = streamChunksF content chunkSize pos remaining g := by
  intro f
  induction f with
  | zero => intro g pos remaining hf _; omega
  | succ f ih =>
    intro g pos remaining hf hg
    cases g with
    | zero => omega
    | succ g =>
      simp only [streamChunksF]
      split
      · rfl
      · rename_i hrem
        split
        · rfl
        · rename_i hk
          have hk1 : min (min remaining chunkSize) (content.length - pos) ≤ remaining :=
            le_trans (Nat.min_le_left _ _) (Nat.min_le_left _ _)
          rw [ih g (pos + min (min remaining chunkSize) (content.length - pos))
            (remaining - min (min remaining chunkSize) (content.length - pos))
            (by omega) (by omega)]

theorem streamChunks_eq (content : List Nat) (pos remaining chunkSize : Nat) :
    streamChunks content pos remaining chunkSize =
      if remaining = 0 then []
      else
        let toRead := min remaining chunkSize
        let k := min toRead (content.length - pos)
        if k = 0 then []
        else ((content.drop pos).take k)
          :: streamChunks content (pos + k) (remaining - k) chunkSize := by
  by_cases hrem : remaining = 0
  · unfold streamChunks
    simp only [streamChunksF, hrem, if_pos rfl]
    rfl
  · rw [if_neg hrem]
    unfold streamChunks
    have hstep : streamChunksF content chunkSize pos remaining (remaining + 1) =
        if min (min remaining chunkSize) (content.length - pos) = 0 then []
        else ((content.drop pos).take (min (min remaining chunkSize) (content.length - pos)))
          :: streamChunksF content chunkSize
               (pos + min (min remaining chunkSize) (content.length - pos))
               (remaining - min (min remaining chunkSize) (content.length - pos)) remaining := by
      simp only [streamChunksF]
      rw [if_neg hrem]
    rw [hstep]
    by_cases hk : min (min remaining chunkSize) (content.length - pos) = 0
    · rw [if_pos hk, if_pos hk]
    · rw [if_neg hk, if_neg hk]
      have hk1 : min (min remaining chunkSize) (content.length - pos) ≤ remaining :=
        le_trans (Nat.min_le_left _ _) (Nat.min_le_left _ _)
      rw [streamChunksF_stable content chunkSize remaining
        (remaining - min (min remaining chunkSize) (content.length - pos) + 1)
        (pos + min (min remaining chunkSize) (content.length - pos))
        (remaining - min (min remaining chunkSize) (content.length - pos))
        (by omega) (by omega)]

/-- Body of main.rs `serve_file` once a range (or the whole-file default) has
been fixed: write the prepared header block, then—only then—check
`start_byte >= file_size` and either send a full `416` error response or seek
and stream.  `bytes_remaining = end_byte - start_byte + 1` in wrapping `u64`
arithmetic. -/
def serveRange (content : List Nat) (chunkSize startB endB : Nat)
    (header : Str) : List WriteEvent :=
  WriteEvent.headerBlock header ::
    (if startB ≥ content.length then
      [WriteEvent.errorResponse 416 (str "Requested Range Not Satisfiable")]
    else
      (streamChunks content startB (wrap64 (sub64 endB startB + 1)) chunkSize).map
        WriteEvent.fileChunk)

/-- main.rs `serve_file` (lines 488-941): `start_byte`/`end_byte` default to
`0` and `file_size - 1` (wrapping when the file is empty); a `Range` header
must start with `bytes=`, is trimmed with `trim_start_matches`, split on `-`
into exactly two parts, and the parts are parsed with `u64::from_str`
(an empty second part meaning `file_size - 1`); any parse failure sends a
complete `400` response.  File open and metadata are assumed to succeed: the
file's bytes are the `content` argument. -/
def serve_file (content : List Nat) (filename : Str) (rangeHeader : Option Str)
    (chunkSize : Nat) : List WriteEvent :=
  let fileSize := content.length
  let defEnd := sub64 fileSize 1
  match rangeHeader with
  | none => serveRange content chunkSize 0 defEnd (http200Header fileSize filename)
  | some rh =>
    if (str "bytes=").isPrefixOf rh then
      match splitChar 45 (trimStartMatches (str "bytes=") rh) with
      | [p0, p1] =>
        match parseU64 p0 with
        | none => [WriteEvent.errorResponse 400 (str "Bad Request")]
        | some startB =>
          if p1.isEmpty then
            serveRange content chunkSize startB defEnd
              (http206Header startB defEnd fileSize filename)
          else
            match parseU64 p1 with
            | none => [WriteEvent.errorResponse 400 (str "Bad Request")]
            | some endB =>
              serveRange content chunkSize startB endB
                (http206Header startB endB fileSize filename)
      | _ => [WriteEvent.errorResponse 400 (str "Bad Request")]
    else [WriteEvent.errorResponse 400 (str "Bad Request")]

set_option maxRecDepth 16384 in
example :
    serve_file (str "hello") (str "a.txt") (some (str "bytes=2-4")) 1024 =
      [WriteEvent.headerBlock (http206Header 2 4 5 (str "a.txt")),
       WriteEvent.fileChunk (str "llo")] := by decide

example :
    serve_file (str "hello") (str "a.txt") none 2 =
      [WriteEvent.headerBlock (http200Header 5 (str "a.txt")),
       WriteEvent.fileChunk (str "he"), WriteEvent.fileChunk (str "ll"),
       WriteEvent.fileChunk (str "o")] := by decide

set_option maxRecDepth 16384 in
example :
    serve_file (str "hello") (str "a.txt") (some (str "bytes=7-9")) 1024 =
      [WriteEvent.headerBlock (http206Header 7 9 5 (str "a.txt")),
       WriteEvent.errorResponse 416 (str "Requested Range Not Satisfiable")] := by decide

set_option maxRecDepth 16384 in
example :
    serve_file (str "hello") (str "a.txt") (some (str "bytes=3-1")) 1024 =
      [WriteEvent.headerBlock (http206Header 3 1 5 (str "a.txt")),
       WriteEvent.fileChunk (str "lo")] := by decide

example :
    serve_file [] (str "a.txt") none 1024 =
      [WriteEvent.headerBlock (http200Header 0 (str "a.txt")),
       WriteEvent.errorResponse 416 (str "Requested Range Not Satisfiable")] := by decide

theorem streamChunks_eq2 (content : List Nat) (pos remaining chunkSize : Nat) :
    streamChunks content pos remaining chunkSize =
      if remaining = 0 then []
      else if min (min remaining chunkSize) (content.length - pos) = 0 then []
      else ((content.drop pos).take (min (min remaining chunkSize) (content.length - pos)))
        :: streamChunks content (pos + min (min remaining chunkSize) (content.length - pos))
             (remaining - min (min remaining chunkSize) (content.length - pos)) chunkSize :=
  streamChunks_eq content pos remaining chunkSize

/-- With a positive chunk size, the streaming loop writes exactly the slice
`content[pos .. pos+remaining)` when that slice lies inside the file. -/
theorem streamChunks_flatten (content : List Nat) (chunkSize : Nat) (hcs : 0 < chunkSize) :
    ∀ remaining pos, pos + remaining ≤ content.length →
      (streamChunks content pos remaining chunkSize).flatten
        = (content.drop pos).take remaining := by
  intro remaining
  induction remaining using Nat.strong_induction_on with
  | _ remaining ih =>
    intro pos hle
    rw [streamChunks_eq2]
    by_cases h0 : remaining = 0
    · subst h0
      simp
    · rw [if_neg h0]
      have hkpos : min (min remaining chunkSize) (content.length - pos) ≠ 0 := by
        have h1 : 0 < remaining := by omega
        have h2 : 0 < content.length - pos := by omega
        have := Nat.lt_min.2 ⟨Nat.lt_min.2 ⟨h1, hcs⟩, h2⟩
        omega
      rw [if_neg hkpos]
      have hk1 : min (min remaining chunkSize) (content.length - pos) ≤ remaining :=
        le_trans (Nat.min_le_left _ _) (Nat.min_le_left _ _)
      have hkne : 0 < min (min remaining chunkSize) (content.length - pos) := by omega
      set k := min (min remaining chunkSize) (content.length - pos) with hkdef
      have hrec := ih (remaining - k) (by omega) (pos + k) (by omega)
      simp only [List.flatten_cons, hrec]
      have hdd : content.drop (pos + k) = (content.drop pos).drop k := by
        rw [List.drop_drop]
      rw [hdd, ← List.take_add]
      have : k + (remaining - k) = remaining := by omega
      rw [this]

theorem isPrefixOf_append_self {α : Type} [BEq α] [LawfulBEq α] (l t : List α) :
    l.isPrefixOf (l ++ t) = true := by
  rw [List.isPrefixOf_iff_prefix]
  exact List.prefix_append l t

theorem bytesEq_not_prefixOf_digit (c : Nat) (cs : Str) (hc : c ≠ 98) :
    (str "bytes=").isPrefixOf (c :: cs) = false := by
  have hb : str "bytes=" = 98 :: str "ytes=" := rfl
  rw [hb]
  simp only [List.isPrefixOf]
  simp [Ne.symm hc]

/-- Parsing chain of main.rs `serve_file` on a well-formed
`bytes=<a>-<b>` header: the two decimal fields are recovered exactly. -/
theorem serve_file_parses_range (content : List Nat) (filename : Str)
    (a b chunkSize : Nat) (ha : a < 2 ^ 64) (hb : b < 2 ^ 64) :
    serve_file content filename (some (str "bytes=" ++ natDigits a ++ 45 :: natDigits b))
        chunkSize
      = serveRange content chunkSize a b
          (http206Header a b content.length filename) := by
  have hdiga := natDigits_mem_digit a
  have hdigb := natDigits_mem_digit b
  obtain ⟨c, cs, hcs⟩ := List.exists_cons_of_ne_nil (natDigits_ne_nil a)
  have hc : 48 ≤ c ∧ c ≤ 57 := hdiga c (by rw [hcs]; exact List.mem_cons_self c cs)
  have hassoc : str "bytes=" ++ natDigits a ++ 45 :: natDigits b
      = str "bytes=" ++ (natDigits a ++ 45 :: natDigits b) := by
    simp [List.append_assoc]
  rw [hassoc]
  have htrim : trimStartMatches (str "bytes=")
        (str "bytes=" ++ (natDigits a ++ 45 :: natDigits b))
      = natDigits a ++ 45 :: natDigits b := by
    rw [trimStartMatches_step _ _ (by decide) (isPrefixOf_append_self _ _), List.drop_left]
    apply trimStartMatches_no_match
    rw [hcs, List.cons_append]
    simp [bytesEq_not_prefixOf_digit c (cs ++ 45 :: natDigits b) (by omega)]
  have h45a : (45 : Nat) ∉ natDigits a := fun hm => by
    have := hdiga 45 hm
    omega
  have h45b : (45 : Nat) ∉ natDigits b := fun hm => by
    have := hdigb 45 hm
    omega
  have hsplit : splitChar 45 (natDigits a ++ 45 :: natDigits b)
      = [natDigits a, natDigits b] := by
    rw [splitChar_append_sep 45 _ _ h45a, splitChar_not_mem 45 _ h45b]
  have hbne : (natDigits b).isEmpty = false := by
    simp [List.isEmpty_iff, natDigits_ne_nil b]
  simp only [serve_file, isPrefixOf_append_self, if_true, htrim, hsplit,
    parseU64_natDigits a ha, parseU64_natDigits b hb, hbne, Bool.false_eq_true, if_false]

theorem http206Header_decompose (a b S : Nat) (fn : Str) (hab : a ≤ b) (hb : b + 1 < 2 ^ 64) :
    http206Header a b S fn
      = str "HTTP/1.1 206 Partial Content\r\n"
        ++ (str "Content-Range: bytes " ++ natDigits a ++ 45 :: natDigits b
            ++ 47 :: natDigits S)
        ++ (str "\r\nContent-Disposition: attachment; filename=\"" ++ fn
            ++ str "\"\r\nContent-Length: " ++ natDigits (b - a + 1)
            ++ str "\r\nContent-Type: application/octet-stream\r\n Accept-Ranges: bytes\r\n\r\n") := by
  have h1 : sub64 b a = b - a := by
    unfold sub64
    omega
  have h2 : wrap64 (b - a + 1) = b - a + 1 := by
    unfold wrap64
    omega
  unfold http206Header
  rw [h1, h2]
  have hs1 : str "HTTP/1.1 206 Partial Content\r\nContent-Range: bytes "
      = str "HTTP/1.1 206 Partial Content\r\n" ++ str "Content-Range: bytes " := by decide
  have hs2 : str "-" = [45] := rfl
  have hs3 : str "/" = [47] := rfl
  rw [hs1, hs2, hs3]
  simp [List.append_assoc]

theorem serve_file_no_range (content : List Nat) (filename : Str) (chunkSize : Nat) :
    serve_file content filename none chunkSize
      = serveRange content chunkSize 0 (sub64 content.length 1)
          (http200Header content.length filename) := by
  simp only [serve_file]

/-- C2 (amended): for a file of size `S` (below `2^64`), a positive chunk size
and a valid `Range: bytes=a-b` with `0 ≤ a ≤ b < S`, main.rs `serve_file`
writes exactly the `206` header block (whose status line is
`HTTP/1.1 206 Partial Content` and which carries `Content-Range: bytes a-b/S`
and `Content-Length: b-a+1`) followed by file chunks whose concatenation is
exactly bytes `[a,b]` of the file (length `b-a+1`); absent a `Range` header
and for a *non-empty* file, it writes the `200` header block followed by the
whole file. -/
theorem serve_file_range_and_full_file_correct
    (content : List Nat) (filename : Str) (a b chunkSize : Nat)
    (hlen : content.length < 2 ^ 64) (hcs : 0 < chunkSize)
    (hab : a ≤ b) (hbS : b < content.length) :
    serve_file content filename (some (str "bytes=" ++ natDigits a ++ 45 :: natDigits b))
        chunkSize
      = WriteEvent.headerBlock (http206Header a b content.length filename)
        :: (streamChunks content a (b - a + 1) chunkSize).map WriteEvent.fileChunk
    ∧ (streamChunks content a (b - a + 1) chunkSize).flatten
        = (content.drop a).take (b - a + 1)
    ∧ ((content.drop a).take (b - a + 1)).length = b - a + 1
    ∧ str "HTTP/1.1 206 Partial Content\r\n" <+: http206Header a b content.length filename
    ∧ (str "Content-Range: bytes " ++ natDigits a ++ 45 :: natDigits b
        ++ 47 :: natDigits content.length) <:+: http206Header a b content.length filename
    ∧ serve_file content filename none chunkSize
        = WriteEvent.headerBlock (http200Header content.length filename)
          :: (streamChunks content 0 content.length chunkSize).map WriteEvent.fileChunk
    ∧ (streamChunks content 0 content.length chunkSize).flatten = content := by
  have ha64 : a < 2 ^ 64 := by omega
  have hb64 : b < 2 ^ 64 := by omega
  have hb164 : b + 1 < 2 ^ 64 := by omega
  have hsub : sub64 b a = b - a := by
    unfold sub64
    omega
  have hwrap : wrap64 (b - a + 1) = b - a + 1 := by
    unfold wrap64
    omega
  refine ⟨?_, ?_, ?_, ?_, ?_, ?_, ?_⟩
  · rw [serve_file_parses_range content filename a b chunkSize ha64 hb64]
    unfold serveRange
    rw [if_neg (by omega), hsub, hwrap]
  · exact streamChunks_flatten content chunkSize hcs (b - a + 1) a (by omega)
  · simp only [List.length_take, List.length_drop]
    omega
  · rw [http206Header_decompose a b content.length filename hab hb164, List.append_assoc]
    exact List.prefix_append _ _
  · exact ⟨str "HTTP/1.1 206 Partial Content\r\n", _,
      (http206Header_decompose a b content.length filename hab hb164).symm⟩
  · rw [serve_file_no_range]
    unfold serveRange
    have hend : sub64 content.length 1 = content.length - 1 := by
      unfold sub64
      omega
    have hsub0 : sub64 (content.length - 1) 0 = content.length - 1 := by
      unfold sub64
      omega
    have hw : wrap64 (content.length - 1 + 1) = content.length := by
      unfold wrap64
      omega
    rw [if_neg (by omega), hend, hsub0, hw]
  · rw [streamChunks_flatten content chunkSize hcs content.length 0 (by omega)]
    simp

/-- Witness for C2 at the spec's own concrete scenario: `a.txt` = `hello`,
`Range: bytes=2-4`. -/
theorem serve_file_range_and_full_file_correct_witness :
    serve_file (str "hello") (str "a.txt")
        (some (str "bytes=" ++ natDigits 2 ++ 45 :: natDigits 4)) 1024
      = WriteEvent.headerBlock (http206Header 2 4 (str "hello").length (str "a.txt"))
        :: (streamChunks (str "hello") 2 (4 - 2 + 1) 1024).map WriteEvent.fileChunk :=
  (serve_file_range_and_full_file_correct (str "hello") (str "a.txt") 2 4 1024
    (by decide) (by decide) (by decide) (by decide)).1

/-- C2 counterexample: for the empty file, a request *without* a `Range`
header is answered with the `200` header block *followed by a complete `416`
error response* on the same connection (in a debug build the `file_size - 1`
subtraction panics instead), so the response is not just `200` covering the
whole file. -/
theorem serve_file_empty_file_spurious_416 :
    serve_file [] (str "a.txt") none 1024
        = [WriteEvent.headerBlock (http200Header 0 (str "a.txt")),
           WriteEvent.errorResponse 416 (str "Requested Range Not Satisfiable")]
      ∧ serve_file [] (str "a.txt") none 1024
          ≠ [WriteEvent.headerBlock (http200Header 0 (str "a.txt"))] := by
  constructor
  · decide
  · decide

/-- C5: main.rs `serve_file` evaluated at its two unsatisfiable-range shapes,
for the 5-byte file `hello`.  For `bytes=7-9` (`a ≥ S`) it writes the full
`206` header block (status line and `Content-Range` included) *before* the
`416` check and then sends a complete `416` error response after it; for
`bytes=3-1` (`a > b`, `a < S`) it never sends `416` at all: the wrapping
`end - start + 1` makes it stream from offset 3 to end of file (a debug build
panics on the subtraction). -/
theorem serve_file_unsatisfiable_range_behaviour :
    serve_file (str "hello") (str "a.txt") (some (str "bytes=7-9")) 1024
        = [WriteEvent.headerBlock (http206Header 7 9 5 (str "a.txt")),
           WriteEvent.errorResponse 416 (str "Requested Range Not Satisfiable")]
      ∧ serve_file (str "hello") (str "a.txt") (some (str "bytes=3-1")) 1024
          = [WriteEvent.headerBlock (http206Header 3 1 5 (str "a.txt")),
             WriteEvent.fileChunk (str "lo")] := by
  constructor
  · set_option maxRecDepth 16384 in decide
  · set_option maxRecDepth 16384 in decide

/-! ### Base64 (the `base64` crate, `general_purpose::STANDARD` engine)

Bytes are naturals below 256; encoded text is the `Str` of alphabet
characters.  The STANDARD engine requires canonical `=` padding and rejects
non-zero trailing bits (`decode_allow_trailing_bits` is off). -/

def b64Char (i : Nat) : Nat :=
  if i < 26 then 65 + i
  else if i < 52 then 97 + (i - 26)
  else if i < 62 then 48 + (i - 52)
  else if i = 62 then 43
  else 47

def b64Index (c : Nat) : Option Nat :=
  if 65 ≤ c ∧ c ≤ 90 then some (c - 65)
  else if 97 ≤ c ∧ c ≤ 122 then some (26 + (c - 97))
  else if 48 ≤ c ∧ c ≤ 57 then some (52 + (c - 48))
  else if c = 43 then some 62
  else if c = 47 then some 63
  else none

def base64Encode : List Nat → Str
  | [] => []
  | [a] => [b64Char (a / 4), b64Char (a % 4 * 16), 61, 61]
  | [a, b] => [b64Char (a / 4), b64Char (a % 4 * 16 + b / 16), b64Char (b % 16 * 4), 61]
  | a :: b :: c :: rest =>
    b64Char (a / 4) :: b64Char (a % 4 * 16 + b / 16) :: b64Char (b % 16 * 4 + c / 64)
      :: b64Char (c % 64) :: base64Encode rest

def base64Decode : Str → Option (List Nat)
  | [] => some []
  | c1 :: c2 :: c3 :: c4 :: rest =>
    match b64Index c1, b64Index c2 with
    | some i1, some i2 =>
      if c3 = 61 then
        if c4 = 61 ∧ rest = [] then
          if i2 % 16 = 0 then some [i1 * 4 + i2 / 16] else none
        else none
      else
        match b64Index c3 with
        | some i3 =>
          if c4 = 61 then
            if rest = [] then
              if i3 % 4 = 0 then some [i1 * 4 + i2 / 16, i2 % 16 * 16 + i3 / 4] else none
            else none
          else
            match b64Index c4, base64Decode rest with
            | some i4, some tail =>
              some ((i1 * 4 + i2 / 16) :: (i2 % 16 * 16 + i3 / 4) :: (i3 % 4 * 64 + i4) :: tail)
            | _, _ => none
        | none => none
    | _, _ => none
  | _ => none

theorem b64Index_b64Char : ∀ i < 64, b64Index (b64Char i) = some i := by decide

theorem b64Char_ne_61 : ∀ i < 64, b64Char i ≠ 61 := by decide

theorem base64_roundtrip :
    ∀ bytes : List Nat, (∀ x ∈ bytes, x < 256) →
      base64Decode (base64Encode bytes) = some bytes := by
  intro bytes
  induction bytes using base64Encode.induct with
  | case1 => intro _; rfl
  | case2 a =>
    intro hmem
    have ha : a < 256 := hmem a (by simp)
    simp only [base64Encode, base64Decode,
      b64Index_b64Char (a / 4) (by omega), b64Index_b64Char (a % 4 * 16) (by omega)]
    rw [if_pos trivial, if_pos ⟨trivial, trivial⟩, if_pos (show a % 4 * 16 % 16 = 0 by omega)]
    have h1 : a / 4 * 4 + a % 4 * 16 / 16 = a := by omega
    rw [h1]
  | case3 a b =>
    intro hmem
    have ha : a < 256 := hmem a (by simp)
    have hb : b < 256 := hmem b (by simp)
    simp only [base64Encode, base64Decode,
      b64Index_b64Char (a / 4) (by omega),
      b64Index_b64Char (a % 4 * 16 + b / 16) (by omega),
      b64Index_b64Char (b % 16 * 4) (by omega)]
    rw [if_neg (b64Char_ne_61 (b % 16 * 4) (by omega))]
    rw [if_pos trivial, if_pos trivial, if_pos (show b % 16 * 4 % 4 = 0 by omega)]
    have h1 : a / 4 * 4 + (a % 4 * 16 + b / 16) / 16 = a := by omega
    have h2 : (a % 4 * 16 + b / 16) % 16 * 16 + b % 16 * 4 / 4 = b := by omega
    rw [h1, h2]
  | case4 a b c rest ih =>
    intro hmem
    have ha : a < 256 := hmem a (by simp)
    have hb : b < 256 := hmem b (by simp)
    have hc : c < 256 := hmem c (by simp)
    have htail := ih (fun x hx => hmem x (by simp [hx]))
    simp only [base64Encode, base64Decode,
      b64Index_b64Char (a / 4) (by omega),
      b64Index_b64Char (a % 4 * 16 + b / 16) (by omega),
      b64Index_b64Char (b % 16 * 4 + c / 64) (by omega),
      b64Index_b64Char (c % 64) (by omega)]
    rw [if_neg (b64Char_ne_61 (b % 16 * 4 + c / 64) (by omega)),
      if_neg (b64Char_ne_61 (c % 64) (by omega)), htail]
    have h1 : a / 4 * 4 + (a % 4 * 16 + b / 16) / 16 = a := by omega
    have h2 : (a % 4 * 16 + b / 16) % 16 * 16 + (b % 16 * 4 + c / 64) / 4 = b := by omega
    have h3 : (b % 16 * 4 + c / 64) % 4 * 64 + c % 64 = c := by omega
    rw [h1, h2]
    show some (a :: b :: ((b % 16 * 4 + c / 64) % 4 * 64 + c % 64) :: rest)
      = some (a :: b :: c :: rest)
    rw [h3]

/-! ### UTF-8 (Rust `String::from_utf8` / `str` byte representation) -/

/-- UTF-8 encoding of one Unicode scalar value. -/
def utf8EncodeChar (c : Nat) : List Nat :=
  if c < 0x80 then [c]
  else if c < 0x800 then [0xC0 + c / 64, 0x80 + c % 64]
  else if c < 0x10000 then [0xE0 + c / 4096, 0x80 + c / 64 % 64, 0x80 + c % 64]
  else [0xF0 + c / 262144, 0x80 + c / 4096 % 64, 0x80 + c / 64 % 64, 0x80 + c % 64]

/-- UTF-8 bytes of a string (Rust `str::as_bytes` / `String::into_bytes`). -/
def utf8Encode (s : Str) : List Nat := (s.map utf8EncodeChar).flatten

/-- One step of strict UTF-8 decoding, with the same shortest-form and
surrogate restrictions Rust's `String::from_utf8` enforces: returns the
decoded scalar and the remaining bytes. -/
def utf8Decode1 (bytes : List Nat) : Option (Nat × List Nat) :=
  match bytes with
  | [] => none
  | b :: rest =>
    if b < 0x80 then some (b, rest)
    else if b < 0xC2 then none
    else if b ≤ 0xDF then
      match rest with
      | b2 :: r =>
        if 0x80 ≤ b2 ∧ b2 ≤ 0xBF then some ((b - 0xC0) * 64 + (b2 - 0x80), r) else none
      | [] => none
    else if b ≤ 0xEF then
      match rest with
      | b2 :: b3 :: r =>
        if (if b = 0xE0 then 0xA0 else 0x80) ≤ b2 ∧ b2 ≤ (if b = 0xED then 0x9F else 0xBF)
            ∧ 0x80 ≤ b3 ∧ b3 ≤ 0xBF then
          some ((b - 0xE0) * 4096 + (b2 - 0x80) * 64 + (b3 - 0x80), r)
        else none
      | _ => none
    else if b ≤ 0xF4 then
      match rest with
      | b2 :: b3 :: b4 :: r =>
        if (if b = 0xF0 then 0x90 else 0x80) ≤ b2 ∧ b2 ≤ (if b = 0xF4 then 0x8F else 0xBF)
            ∧ 0x80 ≤ b3 ∧ b3 ≤ 0xBF ∧ 0x80 ≤ b4 ∧ b4 ≤ 0xBF then
          some ((b - 0xF0) * 262144 + (b2 - 0x80) * 4096 + (b3 - 0x80) * 64 + (b4 - 0x80), r)
        else none
      | _ => none
    else none

def utf8DecodeF : Nat → List Nat → Option Str
  | _, [] => some []
  | 0, _ :: _ => none
  | f + 1, bytes =>
    match utf8Decode1 bytes with
    | none => none
    | some (c, rest) => (utf8DecodeF f rest).map (c :: ·)

/-- Rust `String::from_utf8`: `some` of the scalar sequence exactly when the
bytes are valid UTF-8. -/
def utf8Decode (bytes : List Nat) : Option Str := utf8DecodeF (bytes.length + 1) bytes

theorem utf8Decode1_encodeChar (c : Nat) (hv : validScalar c = true) (tail : List Nat) :
    utf8Decode1 (utf8EncodeChar c ++ tail) = some (c, tail) := by
  simp [validScalar] at hv
  unfold utf8EncodeChar
  by_cases h1 : c < 0x80
  · simp only [if_pos h1, List.cons_append, List.nil_append, utf8Decode1]
  · rw [if_neg h1]
    by_cases h2 : c < 0x800
    · simp only [if_pos h2, List.cons_append, List.nil_append, utf8Decode1]
      rw [if_neg (by omega), if_neg (by omega), if_pos (by omega),
        if_pos (by constructor <;> omega)]
      have : (0xC0 + c / 64 - 0xC0) * 64 + (0x80 + c % 64 - 0x80) = c := by omega
      rw [this]
    · rw [if_neg h2]
      by_cases h3 : c < 0x10000
      · have hsur : c < 0xD800 ∨ 0xDFFF < c := by omega
        simp only [if_pos h3, List.cons_append, List.nil_append, utf8Decode1]
        rw [if_neg (by omega), if_neg (by omega), if_neg (by omega), if_pos (by omega)]
        rw [if_pos ?cond]
        case cond =>
          refine ⟨?_, ?_, by omega, by omega⟩
          · split
            · rename_i he
              have hc0 : c / 4096 = 0 := by omega
              omega
            · omega
          · split
            · rename_i he
              have hc13 : c / 4096 = 13 := by omega
              omega
            · omega
        have : (0xE0 + c / 4096 - 0xE0) * 4096 + (0x80 + c / 64 % 64 - 0x80) * 64
            + (0x80 + c % 64 - 0x80) = c := by omega
        rw [this]
      · rw [if_neg h3]
        have hmax : c < 0x110000 := by omega
        simp only [List.cons_append, List.nil_append, utf8Decode1]
        rw [if_neg (by omega), if_neg (by omega), if_neg (by omega), if_neg (by omega),
          if_pos (by omega)]
        rw [if_pos ?cond2]
        case cond2 =>
          refine ⟨?_, ?_, by omega, by omega, by omega, by omega⟩
          · split
            · rename_i he
              have hc0 : c / 262144 = 0 := by omega
              omega
            · omega
          · split
            · rename_i he
              have hc4 : c / 262144 = 4 := by omega
              omega
            · omega
        have : (0xF0 + c / 262144 - 0xF0) * 262144 + (0x80 + c / 4096 % 64 - 0x80) * 4096
            + (0x80 + c / 64 % 64 - 0x80) * 64 + (0x80 + c % 64 - 0x80) = c := by omega
        rw [this]

theorem utf8Encode_cons (c : Nat) (cs : Str) :
    utf8Encode (c :: cs) = utf8EncodeChar c ++ utf8Encode cs := by
  simp [utf8Encode]

theorem utf8EncodeChar_ne_nil (c : Nat) : utf8EncodeChar c ≠ [] := by
  unfold utf8EncodeChar
  split
  · simp
  · split
    · simp
    · split
      · simp
      · simp

theorem utf8EncodeChar_lt_256 (c : Nat) (h : c < 0x110000) :
    ∀ x ∈ utf8EncodeChar c, x < 256 := by
  unfold utf8EncodeChar
  by_cases h1 : c < 0x80
  · rw [if_pos h1]
    intro x hx
    simp only [List.mem_singleton] at hx
    omega
  · rw [if_neg h1]
    by_cases h2 : c < 0x800
    · rw [if_pos h2]
      intro x hx
      simp only [List.mem_cons, List.mem_singleton, List.not_mem_nil, or_false] at hx
      omega
    · rw [if_neg h2]
      by_cases h3 : c < 0x10000
      · rw [if_pos h3]
        intro x hx
        simp only [List.mem_cons, List.mem_singleton, List.not_mem_nil, or_false] at hx
        omega
      · rw [if_neg h3]
        intro x hx
        simp only [List.mem_cons, List.mem_singleton, List.not_mem_nil, or_false] at hx
        omega

theorem utf8Encode_lt_256 (s : Str) (hv : ∀ c ∈ s, validScalar c = true) :
    ∀ x ∈ utf8Encode s, x < 256 := by
  intro x hx
  simp only [utf8Encode, List.mem_flatten, List.mem_map] at hx
  obtain ⟨l, ⟨c, hcs, rfl⟩, hxl⟩ := hx
  have hvc := hv c hcs
  have hc : c < 0x110000 := by
    simp [validScalar] at hvc
    omega
  exact utf8EncodeChar_lt_256 c hc x hxl

theorem utf8DecodeF_encode :
    ∀ s : Str, (∀ c ∈ s, validScalar c = true) →
      ∀ f, (utf8Encode s).length < f → utf8DecodeF f (utf8Encode s) = some s := by
  intro s
  induction s with
  | nil =>
    intro _ f _
    cases f <;> rfl
  | cons c cs ih =>
    intro hvalid f hf
    have hvc : validScalar c = true := hvalid c (List.mem_cons_self c cs)
    have hd1 := utf8Decode1_encodeChar c hvc (utf8Encode cs)
    obtain ⟨b, bs, hb⟩ := List.exists_cons_of_ne_nil (utf8EncodeChar_ne_nil c)
    rw [utf8Encode_cons] at hf ⊢
    rw [hb, List.cons_append] at hf hd1 ⊢
    cases f with
    | zero => omega
    | succ f =>
      simp only [utf8DecodeF, hd1]
      have hlen : (utf8Encode cs).length < f := by
        simp only [List.length_cons, List.length_append] at hf
        omega
      rw [ih (fun x hx => hvalid x (List.mem_cons_of_mem c hx)) f hlen]
      rfl

/-- `String::from_utf8` inverts UTF-8 encoding on every valid string. -/
theorem utf8_roundtrip (s : Str) (hvalid : ∀ c ∈ s, validScalar c = true) :
    utf8Decode (utf8Encode s) = some s :=
  utf8DecodeF_encode s hvalid ((utf8Encode s).length + 1) (Nat.lt_succ_self _)

/-! ### `is_authenticated` from `src/http.rs` (lines 404-430) -/

/-- Rust `str::split_once(':')`: splits at the first colon. -/
def splitOnce58 : Str → Option (Str × Str)
  | [] => none
  | x :: xs =>
    if x = 58 then some ([], xs)
    else
      match splitOnce58 xs with
      | some (l, r) => some (x :: l, r)
      | none => none

theorem splitOnce58_append (u p : Str) (hu : (58 : Nat) ∉ u) :
    splitOnce58 (u ++ 58 :: p) = some (u, p) := by
  induction u with
  | nil => simp [splitOnce58]
  | cons x xs ih =>
    have hx : x ≠ 58 := fun hx => hu (hx ▸ List.mem_cons_self x xs)
    have hxs : (58 : Nat) ∉ xs := fun hm => hu (List.mem_cons_of_mem x hm)
    simp only [List.cons_append, splitOnce58, if_neg hx, List.append_eq, ih hxs]

/-- `is_authenticated` from `src/http.rs`: requires a `Basic ` prefix, strict
base64 decoding, UTF-8 validity of the decoded bytes, a colon split, and an
exact user/password match. -/
def is_authenticated (authHeader : Option Str) (user pass : Str) : Bool :=
  match authHeader with
  | none => false
  | some header =>
    if (str "Basic ").isPrefixOf header then
      let credentials := header.drop (str "Basic ").length
      match base64Decode credentials with
      | none => false
      | some decodedBytes =>
        match utf8Decode decodedBytes with
        | none => false
        | some decodedStr =>
          match splitOnce58 decodedStr with
          | some (providedUser, providedPass) =>
            providedUser == user && providedPass == pass
          | none => false
    else false

/-- The exact header value a well-behaved client sends for credentials
`user`/`pass`: `Basic base64(user:pass)`. -/
def basicAuthHeader (user pass : Str) : Str :=
  str "Basic " ++ base64Encode (utf8Encode (user ++ 58 :: pass))

/-- `is_authenticated` on a `Basic base64(u:p)` header compares `(u, p)`
against the configured credentials, provided `u` contains no colon. -/
theorem is_authenticated_basicAuthHeader (u p user pass : Str)
    (hu : ∀ c ∈ u, validScalar c = true) (hp : ∀ c ∈ p, validScalar c = true)
    (hcolon : (58 : Nat) ∉ u) :
    is_authenticated (some (basicAuthHeader u p)) user pass
      = (u == user && p == pass) := by
  have hv : ∀ c ∈ u ++ 58 :: p, validScalar c = true := by
    intro c hc
    rcases List.mem_append.1 hc with h | h
    · exact hu c h
    · rcases List.mem_cons.1 h with rfl | h
      · decide
      · exact hp c h
  simp only [is_authenticated, basicAuthHeader, isPrefixOf_append_self, if_true,
    List.drop_left, base64_roundtrip (utf8Encode (u ++ 58 :: p)) (utf8Encode_lt_256 _ hv),
    utf8_roundtrip (u ++ 58 :: p) hv, splitOnce58_append u p hcolon]

/-! ### Paths, glob patterns and MIME types -/

/-- The variants of `std::path::Component` that a relative Unix path can
produce. -/
inductive PathComponent where
  | rootDir
  | curDir
  | parentDir
  | normal (name : Str)
  deriving DecidableEq, Repr

/-- `std::path::Path::components` of a Unix path string, to the extent
`normalize_path` observes it: a leading `/` yields `RootDir`, empty segments
are skipped, `.` is `CurDir`, `..` is `ParentDir`, anything else `Normal`.
(Rust itself drops non-leading `CurDir` components while parsing;
`normalize_path` ignores `CurDir` wherever it appears, so the readings
agree.) -/
def pathComponents (p : Str) : List PathComponent :=
  (match p with
   | 47 :: _ => [PathComponent.rootDir]
   | _ => [])
  ++ ((splitChar 47 p).filter (· ≠ [])).map (fun seg =>
      if seg = [46, 46] then PathComponent.parentDir
      else if seg = [46] then PathComponent.curDir
      else PathComponent.normal seg)

def normalizeAux (acc : List Str) : List PathComponent → Except AppError (List Str)
  | [] => .ok acc
  | PathComponent.normal name :: rest => normalizeAux (acc ++ [name]) rest
  | PathComponent.parentDir :: rest =>
    if acc.isEmpty then .error .Forbidden else normalizeAux acc.dropLast rest
  | _ :: rest => normalizeAux acc rest

/-- `normalize_path` from `src/http.rs` (lines 224-240): keep `Normal`
components, pop one on `ParentDir` — failing with `Forbidden` when there is
nothing to pop — and drop everything else. -/
def normalize_path (comps : List PathComponent) : Except AppError (List Str) :=
  normalizeAux [] comps

/-- `request.path.strip_prefix('/').unwrap_or(&request.path)`. -/
def stripLeadingSlash (p : Str) : Str :=
  match p with
  | 47 :: rest => rest
  | _ => p

def globMatchF : Nat → Str → Str → Bool
  | 0, _, _ => false
  | f + 1, pat, s =>
    match pat, s with
    | [], [] => true
    | [], _ :: _ => false
    | 42 :: ps, s2 =>
      globMatchF f ps s2
        || (match s2 with
            | [] => false
            | _ :: cs => globMatchF f (42 :: ps) cs)
    | 63 :: ps, s2 =>
      (match s2 with
       | [] => false
       | _ :: cs => globMatchF f ps cs)
    | p :: ps, s2 =>
      (match s2 with
       | [] => false
       | c :: cs => p == c && globMatchF f ps cs)

/-- glob crate `Pattern::matches` with the default `MatchOptions` (where `*`
may also match `/`, since `require_literal_separator` is off), modelled for
patterns built from literal characters, `?` and `*` — the forms the
extension allow-list grammar of this server uses.  `Pattern::matches_path`
applies this to the path's string form. -/
def globMatch (pat s : Str) : Bool := globMatchF (pat.length + s.length + 1) pat s

/-- String form of an absolute Unix path given by its components
(`Path::to_str` of the joined path). -/
def pathToStr (comps : List Str) : Str := [47] ++ List.intercalate [47] comps

/-- `Path::extension` of one file name: the portion after the last `.`,
none when there is no `.` or when the only `.` is a leading one. -/
def extensionOf (name : Str) : Option Str :=
  match splitChar 46 name with
  | [] => none
  | [_] => none
  | p0 :: parts =>
    if p0 = [] ∧ parts.length = 1 then none else parts.getLast?

def pathExtension (p : List Str) : Option Str :=
  match p.getLast? with
  | some name => extensionOf name
  | none => none

/-- `get_mime_type` from `src/response.rs` (lines 9-32). -/
def get_mime_type (p : List Str) : Str :=
  match pathExtension p with
  | some e =>
    if e = str "html" ∨ e = str "htm" then str "text/html"
    else if e = str "css" then str "text/css"
    else if e = str "js" then str "application/javascript"
    else if e = str "json" then str "application/json"
    else if e = str "xml" then str "application/xml"
    else if e = str "txt" then str "text/plain"
    else if e = str "md" then str "text/markdown"
    else if e = str "png" then str "image/png"
    else if e = str "jpg" ∨ e = str "jpeg" then str "image/jpeg"
    else if e = str "gif" then str "image/gif"
    else if e = str "svg" then str "image/svg+xml"
    else if e = str "ico" then str "image/x-icon"
    else if e = str "pdf" then str "application/pdf"
    else if e = str "zip" then str "application/zip"
    else if e = str "tar" then str "application/x-tar"
    else if e = str "gz" then str "application/gzip"
    else if e = str "mp4" then str "video/mp4"
    else if e = str "mp3" then str "audio/mpeg"
    else if e = str "wav" then str "audio/wav"
    else str "application/octet-stream"
  | none => str "application/octet-stream"

/-! ### Routing (`route_request` from `src/http.rs`, lines 313-401)

Filesystem access is a record of total functions; the request path and
headers come from the parsed request (header names already lower-cased). -/

structure FS where
  pathExists : List Str → Bool
  isDir : List Str → Bool
  isFile : List Str → Bool
  dirListingHtml : List Str → Except AppError Str
  openFile : List Str → Except AppError (List Nat)

/-- Modelled from the spec: `FileDetails` is referenced from `src/http.rs`
(`crate::fs::FileDetails`) but its definition is not under `src/`.  Per §3 of
the spec a streaming body is a descriptor holding the open file handle, the
total length and the chunk size; `FileDetails::new(path, chunk_size)` opens
the file and reads its metadata, recording the file's total length as
`size`. -/
structure FileDetails where
  path : List Str
  size : Nat
  chunkSize : Nat
  deriving DecidableEq, Repr

/-- Modelled from the spec (see `FileDetails`): opening can fail with an I/O
error, otherwise the descriptor records the file's length. -/
def FileDetails.new (fs : FS) (path : List Str) (chunkSize : Nat) :
    Except AppError FileDetails :=
  (fs.openFile path).map fun content =>
    { path := path, size := content.length, chunkSize := chunkSize }

structure Request where
  method : Str
  path : Str
  headers : List (Str × Str)

def headerLookup (headers : List (Str × Str)) (k : Str) : Option Str :=
  (headers.find? (fun kv => kv.1 == k)).map (·.2)

inductive ResponseBody where
  | text (s : Str)
  | stream (fd : FileDetails)
  deriving DecidableEq, Repr

/-- `Response` from `src/http.rs` (lines 23-28).  The header map is kept as
an insertion-ordered association list; the claims below only ever count or
look up header lines, which is insensitive to `HashMap` iteration order. -/
structure Response where
  statusCode : Nat
  statusText : Str
  headers : List (Str × Str)
  body : ResponseBody
  deriving DecidableEq, Repr

structure ServerEnv where
  baseDir : List Str
  allowed : List Str
  username : Option Str
  password : Option Str
  chunkSize : Nat
  now : Nat
  staticAsset : Str → Option (Str × Str)

/-- The fixed JSON body of `create_health_check_response`
(`src/http.rs` lines 271-310). -/
def healthInfo (timestamp : Nat) : Str :=
  str "\x7b\n    \"status\": \"healthy\",\n    \"service\": \"hdl_sv\",\n    \"version\": \"2.0.0\",\n    \"timestamp\": "
    ++ natDigits timestamp
    ++ str ",\n    \"features\": [\n        \"rate_limiting\",\n        \"statistics\", \n        \"native_mime_detection\",\n        \"enhanced_security\",\n        \"beautiful_ui\",\n        \"http11_compliance\",\n        \"request_timeouts\",\n        \"panic_recovery\"\n    ]\n\x7d"

def create_health_check_response (now : Nat) : Response :=
  { statusCode := 200
    statusText := str "OK"
    headers := [(str "Content-Type", str "application/json; charset=utf-8"),
                (str "Cache-Control", str "no-cache")]
    body := ResponseBody.text (healthInfo now) }

/-- `handle_static_asset` from `src/http.rs` (lines 243-268).  The embedded
template engine's `get_static_asset` is code of this repository missing from
`src/`; modelled from the spec (§4.4: assets are delegated to the external
asset collaborator, a missing asset is `NotFound`) as the environment's
`staticAsset` lookup. -/
def handle_static_asset (env : ServerEnv) (path : Str) : Except AppError Response :=
  let assetPath := if (str "/_static/").isPrefixOf path
    then path.drop (str "/_static/").length else []
  match env.staticAsset assetPath with
  | none => .error .NotFound
  | some (content, contentType) =>
    .ok { statusCode := 200
          statusText := str "OK"
          headers := [(str "Content-Type", contentType),
                      (str "Cache-Control", str "public, max-age=3600")]
          body := ResponseBody.text content }

/-- The authentication gate at the top of `route_request`
(`src/http.rs` lines 321-329): the check only runs when both a username and
a password are configured. -/
def authRejected (req : Request) (env : ServerEnv) : Bool :=
  match env.username, env.password with
  | some u, some p => !(is_authenticated (headerLookup req.headers (str "authorization")) u p)
  | _, _ => false

/-- Everything `route_request` does after the authentication gate. -/
def routeAfterAuth (req : Request) (env : ServerEnv) (fs : FS) : Except AppError Response :=
  if req.path = str "/_health" ∨ req.path = str "/_status" then
    .ok (create_health_check_response env.now)
  else if (str "/_static/").isPrefixOf req.path then
    handle_static_asset env req.path
  else if req.method ≠ str "GET" then
    .error .MethodNotAllowed
  else
    match normalize_path (pathComponents (stripLeadingSlash req.path)) with
    | .error e => .error e
    | .ok safePath =>
      let fullPath := env.baseDir ++ safePath
      if ¬ env.baseDir.isPrefixOf fullPath then .error .Forbidden
      else if ¬ fs.pathExists fullPath then .error .NotFound
      else if fs.isDir fullPath then
        match fs.dirListingHtml fullPath with
        | .error e => .error e
        | .ok html =>
          .ok { statusCode := 200
                statusText := str "OK"
                headers := [(str "Content-Type", str "text/html; charset=utf-8")]
                body := ResponseBody.text html }
      else if fs.isFile fullPath then
        if ¬ env.allowed.any (fun pat => globMatch pat (pathToStr fullPath)) then
          .error .Forbidden
        else
          match FileDetails.new fs fullPath env.chunkSize with
          | .error e => .error e
          | .ok fd =>
            .ok { statusCode := 200
                  statusText := str "OK"
                  headers := [(str "Content-Type", get_mime_type fullPath),
                              (str "Content-Length", natDigits fd.size),
                              (str "Accept-Ranges", str "bytes"),
                              (str "Cache-Control", str "public, max-age=3600")]
                  body := ResponseBody.stream fd }
      else .error .NotFound

/-- `route_request` from `src/http.rs` (lines 313-401). -/
def route_request (req : Request) (env : ServerEnv) (fs : FS) : Except AppError Response :=
  if authRejected req env then .error .Unauthorized
  else routeAfterAuth req env fs

/-! ### Response serialization (`send_response`/`send_error_response` from
`src/http.rs`, `HttpResponse`/`create_error_response` from
`src/response.rs`) -/

/-- The header lines of the block `send_response` (`src/http.rs` lines
433-472) writes: `Server` and `Connection` first, then the response's own
header map, then a `Content-Length` computed from the body (for a streamed
body, the `FileDetails` size). -/
def responseHeaderLines (r : Response) : List Str :=
  [str "Server: hdl_sv/2.0.0", str "Connection: close"]
    ++ r.headers.map (fun kv => kv.1 ++ str ": " ++ kv.2)
    ++ [str "Content-Length: "
          ++ (match r.body with
              | ResponseBody.text t => natDigits t.length
              | ResponseBody.stream fd => natDigits fd.size)]

/-- The full serialized header block of `send_response`: status line, header
lines each terminated by CRLF, and the blank line. -/
def send_response_head (r : Response) : Str :=
  (str "HTTP/1.1 " ++ natDigits r.statusCode ++ str " " ++ r.statusText ++ str "\r\n")
    ++ ((responseHeaderLines r).map (fun l => l ++ str "\r\n")).flatten
    ++ str "\r\n"

/-- The status-code table of `send_error_response` (`src/http.rs` lines
494-502). -/
def statusOfError : AppError → Nat × Str
  | AppError.NotFound => (404, str "Not Found")
  | AppError.Forbidden => (403, str "Forbidden")
  | AppError.BadRequest => (400, str "Bad Request")
  | AppError.Unauthorized => (401, str "Unauthorized")
  | AppError.MethodNotAllowed => (405, str "Method Not Allowed")
  | _ => (500, str "Internal Server Error")

/-- `HttpResponse` from `src/response.rs` (lines 55-60); the body is bytes. -/
structure HttpResponse where
  statusCode : Nat
  statusText : Str
  headers : List (Str × Str)
  body : List Nat
  deriving DecidableEq, Repr

/-- `HttpResponse::new` (`src/response.rs` lines 63-74). -/
def HttpResponse.new (code : Nat) (text : Str) : HttpResponse :=
  { statusCode := code
    statusText := text
    headers := [(str "Server", str "hdl_sv/2.0.0"),
                (str "Connection", str "close"),
                (str "Cache-Control", str "no-cache")]
    body := [] }

/-- `HttpResponse::with_html_body` (`src/response.rs` lines 76-83). -/
def HttpResponse.with_html_body (r : HttpResponse) (body : Str) : HttpResponse :=
  { r with
    headers := r.headers ++ [(str "Content-Type", str "text/html; charset=utf-8")]
    body := utf8Encode body }

/-- `HttpResponse::with_auth_challenge` (`src/response.rs` lines 92-98). -/
def HttpResponse.with_auth_challenge (r : HttpResponse) : HttpResponse :=
  { r with
    headers := r.headers ++ [(str "WWW-Authenticate", str "Basic realm=\"Restricted\"")] }

/-- `generate_error_page` (`src/response.rs` lines 35-52).  `create_error_response`
builds a `TemplateEngine::new()` whose template map is empty, so
`render_error_page` always fails and the hard-coded fallback page is used. -/
def generate_error_page (code : Nat) (text : Str) : Str :=
  str "<!DOCTYPE html>\n<html>\n<head><title>Error " ++ natDigits code
    ++ str "</title>\n<style>body\x7bbackground:#1e293b;color:#f1f5f9;font-family:sans-serif;text-align:center;padding:2rem\x7d</style>\n</head>\n<body><h1>"
    ++ natDigits code ++ str "</h1><p>" ++ text
    ++ str "</p><a href=\"/\" style=\"color:#60a5fa\">← Back to Files</a></body>\n</html>"

/-- `create_error_response` (`src/response.rs` lines 149-158): error page body,
and for `401` additionally the `WWW-Authenticate` challenge. -/
def create_error_response (code : Nat) (text : Str) : HttpResponse :=
  let resp := (HttpResponse.new code text).with_html_body (generate_error_page code text)
  if code = 401 then resp.with_auth_challenge else resp

/-- `send_error_response` from `src/http.rs` (lines 494-510), up to the actual
socket write: the complete error response it sends. -/
def send_error_response (e : AppError) : HttpResponse :=
  create_error_response (statusOfError e).1 (statusOfError e).2

example :
    (str "WWW-Authenticate", str "Basic realm=\"Restricted\"")
      ∈ (send_error_response AppError.Unauthorized).headers := by decide

example : (send_error_response AppError.Forbidden).statusCode = 403 := by decide

/-! ### Claim C6 — percent-decoding -/

theorem hexVal_lt_16 (c v : Nat) (h : hexVal c = some v) : v < 16 := by
  unfold hexVal at h
  split at h
  · rename_i hc
    simp only [Bool.and_eq_true, decide_eq_true_eq] at hc
    simp only [Option.some.injEq] at h
    omega
  · split at h
    · rename_i hc
      simp only [Bool.and_eq_true, decide_eq_true_eq] at hc
      simp only [Option.some.injEq] at h
      omega
    · split at h
      · rename_i hc
        simp only [Bool.and_eq_true, decide_eq_true_eq] at hc
        simp only [Option.some.injEq] at h
        omega
      · simp at h

theorem parseHexByte_lt_256 (h1 h2 v : Nat) (h : parseHexByte h1 h2 = some v) : v < 256 := by
  unfold parseHexByte at h
  split at h
  · exact lt_of_lt_of_le (hexVal_lt_16 h2 v h) (by omega)
  · split at h
    · rename_i v1 v2 hv1 hv2
      have b1 := hexVal_lt_16 h1 v1 hv1
      have b2 := hexVal_lt_16 h2 v2 hv2
      simp only [Option.some.injEq] at h
      omega
    · simp at h

/-- C6 (amended): percent-decoding replaces each `%` whose two following
characters parse under `u8::from_str_radix(_, 16)` — two hex digits, or `+`
followed by one hex digit — by the decoded character; a `%xx` whose two
characters do not parse is passed through literally; ordinary characters are
copied; but a `%` followed by fewer than two characters fails the whole
request with `BadRequest` instead of being passed through. -/
theorem decode_url_spec (h1 h2 c : Nat) (rest : Str) :
    (∀ v, parseHexByte h1 h2 = some v →
      decode_url (37 :: h1 :: h2 :: rest) = (fun d => v :: d) <$> decode_url rest)
    ∧ (parseHexByte h1 h2 = none →
      decode_url (37 :: h1 :: h2 :: rest) = (fun d => 37 :: h1 :: h2 :: d) <$> decode_url rest)
    ∧ decode_url [37] = .error .BadRequest
    ∧ decode_url [37, h1] = .error .BadRequest
    ∧ (c ≠ 37 → decode_url (c :: rest) = (fun d => c :: d) <$> decode_url rest)
    ∧ decode_url ([] : Str) = .ok [] := by
  refine ⟨?_, ?_, rfl, rfl, ?_, rfl⟩
  · intro v hv
    have h256 := parseHexByte_lt_256 h1 h2 v hv
    have hval : validScalar v = true := by
      simp [validScalar]
      omega
    simp only [decode_url, hv, hval, if_true]
    rfl
  · intro hv
    simp only [decode_url, hv]
  · intro hc
    rw [decode_url.eq_def]
    split
    · rename_i heq
      exact absurd heq (by simp)
    · rename_i h3 h4 rest2 heq
      exact absurd (List.cons.inj heq).1 hc
    · rename_i heq
      exact absurd (List.cons.inj heq).1 hc
    · rename_i x heq
      exact absurd (List.cons.inj heq).1 hc
    · rename_i c2 rest2 heq
      obtain ⟨he1, he2⟩ := List.cons.inj heq
      subst he1
      subst he2
      rfl

/-- C6 counterexample: a lone `%` (or `%4`) fails the request with
`BadRequest` instead of being passed through literally, and `%+5` — whose
two following characters are not two hex digits — is decoded to U+0005
rather than passed through. -/
theorem decode_url_truncated_percent_counterexample :
    decode_url (str "%") = .error .BadRequest
    ∧ decode_url (str "%4") = .error .BadRequest
    ∧ decode_url (str "%+5") = .ok [5]
    ∧ decode_url (str "%+5") ≠ .ok (str "%+5") := by
  refine ⟨by decide, by decide, by decide, by decide⟩

/-- Witness for C6: `%20` decodes to a space. -/
theorem decode_url_spec_witness :
    decode_url (37 :: 50 :: 48 :: ([] : Str)) = (fun d => 32 :: d) <$> decode_url [] :=
  (decode_url_spec 50 48 0 []).1 32 (by decide)

/-! ### Claim C1 — traversal safety -/

theorem normalizeAux_error_forbidden :
    ∀ (comps : List PathComponent) (acc : List Str) (e : AppError),
      normalizeAux acc comps = .error e → e = .Forbidden := by
  intro comps
  induction comps with
  | nil =>
    intro acc e h
    simp [normalizeAux] at h
  | cons c rest ih =>
    intro acc e h
    cases c with
    | normal name => exact ih _ _ (by simpa [normalizeAux] using h)
    | parentDir =>
      simp only [normalizeAux] at h
      split at h
      · exact (Except.error.inj h).symm
      · exact ih _ _ h
    | rootDir => exact ih _ _ (by simpa [normalizeAux] using h)
    | curDir => exact ih _ _ (by simpa [normalizeAux] using h)

/-- An empty filesystem and a no-credentials environment serving `/srv` with
the default `*.zip,*.txt` allow-list, used to evaluate the router on concrete
requests. -/
def emptyFS : FS :=
  { pathExists := fun _ => false
    isDir := fun _ => false
    isFile := fun _ => false
    dirListingHtml := fun _ => .error .Io
    openFile := fun _ => .error .Io }

def noAuthEnv : ServerEnv :=
  { baseDir := [str "srv"]
    allowed := [str "*.zip", str "*.txt"]
    username := none
    password := none
    chunkSize := 1024
    now := 0
    staticAsset := fun _ => none }

/-- C1 (amended): for `GET` requests that pass the authentication gate and
whose path is not one of the reserved routes (`/_health`, `/_status`,
`/_static/...`): if normalization would pop with no component left, routing
returns `Forbidden` for *every* filesystem (so before any filesystem access),
and `Forbidden` is the only error normalization can produce; otherwise the
resolved path is the root followed by the normalized components, which always
starts with (is a descendant of) the canonical root. -/
theorem route_request_traversal_guard (req : Request) (env : ServerEnv)
    (hget : req.method = str "GET")
    (hauth : authRejected req env = false)
    (hh : req.path ≠ str "/_health") (hs : req.path ≠ str "/_status")
    (hst : (str "/_static/").isPrefixOf req.path = false) :
    (normalize_path (pathComponents (stripLeadingSlash req.path)) = .error .Forbidden →
      ∀ fs : FS, route_request req env fs = .error .Forbidden)
    ∧ (∀ e, normalize_path (pathComponents (stripLeadingSlash req.path)) = .error e →
        e = .Forbidden)
    ∧ (∀ comps, normalize_path (pathComponents (stripLeadingSlash req.path)) = .ok comps →
        env.baseDir.isPrefixOf (env.baseDir ++ comps) = true
        ∧ env.baseDir <+: env.baseDir ++ comps) := by
  refine ⟨?_, ?_, ?_⟩
  · intro hnorm fs
    unfold route_request
    rw [hauth]
    simp only [Bool.false_eq_true, if_false]
    unfold routeAfterAuth
    rw [if_neg (by simp [hh, hs]), if_neg (by simp [hst]), if_neg (by simp [hget]), hnorm]
  · intro e he
    exact normalizeAux_error_forbidden _ _ _ he
  · intro comps _
    exact ⟨isPrefixOf_append_self _ _, List.prefix_append _ _⟩

/-- Witness for C1 at the spec's own scenario 4: `GET /../../etc/passwd`
is`Forbidden`. -/
theorem route_request_traversal_guard_witness :
    route_request { method := str "GET", path := str "/../../etc/passwd", headers := [] }
        noAuthEnv emptyFS = .error .Forbidden :=
  (route_request_traversal_guard _ noAuthEnv rfl (by decide) (by decide) (by decide)
    (by decide)).1 (by decide) emptyFS

/-- C1 counterexample: three request paths whose normalization pops below the
root (each conjunct re-checks that) for which routing does *not* return
`Forbidden`: a `POST` is answered `405` before normalization, a traversal
under the reserved `/_static/` prefix is answered by the asset handler
(`404`), and with credentials configured an unauthenticated traversal is
answered `401`. -/
theorem route_request_traversal_outside_resolution :
    normalize_path (pathComponents (stripLeadingSlash (str "/../x"))) = .error .Forbidden
    ∧ route_request { method := str "POST", path := str "/../x", headers := [] }
        noAuthEnv emptyFS = .error .MethodNotAllowed
    ∧ normalize_path (pathComponents (stripLeadingSlash (str "/_static/../../x")))
        = .error .Forbidden
    ∧ route_request { method := str "GET", path := str "/_static/../../x", headers := [] }
        noAuthEnv emptyFS = .error .NotFound
    ∧ route_request { method := str "GET", path := str "/../x", headers := [] }
        { noAuthEnv with username := some (str "u"), password := some (str "p") }
        emptyFS = .error .Unauthorized := by
  refine ⟨by decide, by decide, by decide, by decide, by decide⟩

/-! ### Claim C3 — authentication gating -/

/-- C3 (amended): with both a username and a password configured, a request
whose `authorization` header is missing, malformed or carries non-matching
credentials is answered `Unauthorized` (mapped to status `401` with a
`WWW-Authenticate: Basic realm="Restricted"` header by the error path); a
request carrying the correct `Basic base64(user:pass)` value proceeds to
normal handling *provided the configured username contains no colon* (the
`split_once(':')` comparison makes colon-bearing usernames unauthenticatable);
with no complete credential pair configured every request skips the check. -/
theorem route_request_auth_gating :
    (∀ (req : Request) (env : ServerEnv) (fs : FS) (u p : Str),
      env.username = some u → env.password = some p →
      is_authenticated (headerLookup req.headers (str "authorization")) u p = false →
      route_request req env fs = .error .Unauthorized)
    ∧ (∀ (req : Request) (env : ServerEnv) (fs : FS) (u p : Str),
      env.username = some u → env.password = some p →
      is_authenticated (headerLookup req.headers (str "authorization")) u p = true →
      route_request req env fs = routeAfterAuth req env fs)
    ∧ (∀ user pass : Str, is_authenticated none user pass = false)
    ∧ (∀ (u2 p2 user pass : Str),
      (∀ c ∈ u2, validScalar c = true) → (∀ c ∈ p2, validScalar c = true) →
      (58 : Nat) ∉ u2 →
      is_authenticated (some (basicAuthHeader u2 p2)) user pass
        = (u2 == user && p2 == pass))
    ∧ (∀ (req : Request) (env : ServerEnv) (fs : FS),
      env.username = none ∨ env.password = none →
      route_request req env fs = routeAfterAuth req env fs)
    ∧ (statusOfError AppError.Unauthorized).1 = 401
    ∧ (str "WWW-Authenticate", str "Basic realm=\"Restricted\"")
        ∈ (send_error_response AppError.Unauthorized).headers := by
  refine ⟨?_, ?_, fun _ _ => rfl, ?_, ?_, rfl, by decide⟩
  · intro req env fs u p hu hp hfail
    unfold route_request authRejected
    rw [hu, hp]
    simp only [hfail]
    rfl
  · intro req env fs u p hu hp hok
    unfold route_request authRejected
    rw [hu, hp]
    simp only [hok]
    rfl
  · intro u2 p2 user pass hu2 hp2 hcolon
    exact is_authenticated_basicAuthHeader u2 p2 user pass hu2 hp2 hcolon
  · intro req env fs h
    unfold route_request authRejected
    rcases h with h | h
    · rw [h]
      rcases henv : env.password with _ | p <;> rfl
    · rw [h]
      rcases henv : env.username with _ | u <;> rfl

/-- Witness for C3: correct credentials `user`/`pass` authenticate. -/
theorem route_request_auth_gating_witness :
    is_authenticated (some (basicAuthHeader (str "user") (str "pass")))
        (str "user") (str "pass")
      = (str "user" == str "user" && str "pass" == str "pass") :=
  (route_request_auth_gating).2.2.2.1 (str "user") (str "pass") (str "user") (str "pass")
    (by decide) (by decide) (by decide)

/-- C3 counterexample: with username `a:b` and password `c` configured, the
*correct* header `Basic base64("a:b" ":" "c")` is still rejected with
`Unauthorized`, because `split_once(':')` splits the decoded credentials at
the first colon. -/
theorem route_request_auth_colon_username_counterexample :
    is_authenticated (some (basicAuthHeader (str "a:b") (str "c"))) (str "a:b") (str "c")
        = false
    ∧ route_request
        { method := str "GET", path := str "/a.txt",
          headers := [(str "authorization", basicAuthHeader (str "a:b") (str "c"))] }
        { noAuthEnv with username := some (str "a:b"), password := some (str "c") }
        emptyFS = .error .Unauthorized := by
  refine ⟨by decide, by decide⟩

/-! ### Claim C4 — extension allow-list -/

/-- C4: once a request resolves to an existing regular file, routing returns
`Forbidden` — mapped to status `403 Forbidden`, not `404` — when no
configured glob pattern matches the resolved path, and hands the file to the
streaming responder when at least one pattern matches. -/
theorem route_request_extension_allowlist (req : Request) (env : ServerEnv) (fs : FS)
    (comps : List Str)
    (hget : req.method = str "GET")
    (hauth : authRejected req env = false)
    (hh : req.path ≠ str "/_health") (hs : req.path ≠ str "/_status")
    (hst : (str "/_static/").isPrefixOf req.path = false)
    (hnorm : normalize_path (pathComponents (stripLeadingSlash req.path)) = .ok comps)
    (hex : fs.pathExists (env.baseDir ++ comps) = true)
    (hdir : fs.isDir (env.baseDir ++ comps) = false)
    (hfile : fs.isFile (env.baseDir ++ comps) = true) :
    (env.allowed.any (fun pat => globMatch pat (pathToStr (env.baseDir ++ comps))) = false →
      route_request req env fs = .error .Forbidden)
    ∧ statusOfError AppError.Forbidden = (403, str "Forbidden")
    ∧ (statusOfError AppError.Forbidden).1 ≠ 404
    ∧ (∀ content : List Nat,
        env.allowed.any (fun pat => globMatch pat (pathToStr (env.baseDir ++ comps))) = true →
        fs.openFile (env.baseDir ++ comps) = .ok content →
        route_request req env fs = .ok
          { statusCode := 200
            statusText := str "OK"
            headers := [(str "Content-Type", get_mime_type (env.baseDir ++ comps)),
                        (str "Content-Length", natDigits content.length),
                        (str "Accept-Ranges", str "bytes"),
                        (str "Cache-Control", str "public, max-age=3600")]
            body := ResponseBody.stream
              { path := env.baseDir ++ comps
                size := content.length
                chunkSize := env.chunkSize } }) := by
  have hroute : route_request req env fs = routeAfterAuth req env fs := by
    unfold route_request
    rw [hauth]
    simp
  have hbase : routeAfterAuth req env fs =
      (if ¬ fs.pathExists (env.baseDir ++ comps) then Except.error AppError.NotFound
       else if fs.isDir (env.baseDir ++ comps) then
         match fs.dirListingHtml (env.baseDir ++ comps) with
         | .error e => .error e
         | .ok html =>
           .ok { statusCode := 200
                 statusText := str "OK"
                 headers := [(str "Content-Type", str "text/html; charset=utf-8")]
                 body := ResponseBody.text html }
       else if fs.isFile (env.baseDir ++ comps) then
         if ¬ env.allowed.any (fun pat => globMatch pat (pathToStr (env.baseDir ++ comps))) then
           .error .Forbidden
         else
           match FileDetails.new fs (env.baseDir ++ comps) env.chunkSize with
           | .error e => .error e
           | .ok fd =>
             .ok { statusCode := 200
                   statusText := str "OK"
                   headers := [(str "Content-Type", get_mime_type (env.baseDir ++ comps)),
                               (str "Content-Length", natDigits fd.size),
                               (str "Accept-Ranges", str "bytes"),
                               (str "Cache-Control", str "public, max-age=3600")]
                   body := ResponseBody.stream fd }
       else .error .NotFound) := by
    unfold routeAfterAuth
    rw [if_neg (by simp [hh, hs]), if_neg (by simp [hst]), if_neg (by simp [hget]), hnorm]
    simp [isPrefixOf_append_self]
  refine ⟨?_, rfl, by decide, ?_⟩
  · intro hnomatch
    rw [hroute, hbase, if_neg (by rw [hex]; simp), hdir]
    simp only [Bool.false_eq_true, if_false, hfile, if_true]
    rw [if_pos (by rw [hnomatch]; simp)]
  · intro content hmatch hopen
    rw [hroute, hbase, if_neg (by rw [hex]; simp), hdir]
    simp only [Bool.false_eq_true, if_false, hfile, if_true]
    rw [if_neg (by rw [hmatch]; simp)]
    unfold FileDetails.new
    rw [hopen]
    rfl

/-- A filesystem holding the regular files `/srv/a.txt` and `/srv/c.zip`. -/
def twoFileFS : FS :=
  { pathExists := fun p => p == [str "srv", str "a.txt"] || p == [str "srv", str "c.zip"]
    isDir := fun _ => false
    isFile := fun p => p == [str "srv", str "a.txt"] || p == [str "srv", str "c.zip"]
    dirListingHtml := fun _ => .error .Io
    openFile := fun p => if p == [str "srv", str "a.txt"] then .ok (str "hello")
      else .error .Io }

/-- Witness for C4: with allow-list `*.txt,*.pdf`, the existing file `c.zip`
routes to `Forbidden`. -/
theorem route_request_extension_allowlist_witness :
    route_request { method := str "GET", path := str "/c.zip", headers := [] }
        { noAuthEnv with allowed := [str "*.txt", str "*.pdf"] } twoFileFS
      = .error .Forbidden :=
  (route_request_extension_allowlist
    { method := str "GET", path := str "/c.zip", headers := [] }
    { noAuthEnv with allowed := [str "*.txt", str "*.pdf"] } twoFileFS
    [str "c.zip"] rfl (by decide) (by decide) (by decide) (by decide) (by decide)
    (by decide) (by decide) (by decide)).1 (by decide)

/-! ### Claim C10 — duplicated `Content-Length` in streamed responses -/

/-- Shared inversion of the successful file branch of `route_request`. -/
theorem route_request_file_ok (req : Request) (env : ServerEnv) (fs : FS)
    (comps : List Str) (content : List Nat)
    (hget : req.method = str "GET")
    (hauth : authRejected req env = false)
    (hh : req.path ≠ str "/_health") (hs : req.path ≠ str "/_status")
    (hst : (str "/_static/").isPrefixOf req.path = false)
    (hnorm : normalize_path (pathComponents (stripLeadingSlash req.path)) = .ok comps)
    (hex : fs.pathExists (env.baseDir ++ comps) = true)
    (hdir : fs.isDir (env.baseDir ++ comps) = false)
    (hfile : fs.isFile (env.baseDir ++ comps) = true)
    (hmatch : env.allowed.any (fun pat => globMatch pat (pathToStr (env.baseDir ++ comps))) = true)
    (hopen : fs.openFile (env.baseDir ++ comps) = .ok content) :
    route_request req env fs = .ok
      { statusCode := 200
        statusText := str "OK"
        headers := [(str "Content-Type", get_mime_type (env.baseDir ++ comps)),
                    (str "Content-Length", natDigits content.length),
                    (str "Accept-Ranges", str "bytes"),
                    (str "Cache-Control", str "public, max-age=3600")]
        body := ResponseBody.stream
          { path := env.baseDir ++ comps
            size := content.length
            chunkSize := env.chunkSize } } := by
  have hroute : route_request req env fs = routeAfterAuth req env fs := by
    unfold route_request
    rw [hauth]
    simp
  have hbase : routeAfterAuth req env fs =
      (if ¬ fs.pathExists (env.baseDir ++ comps) then Except.error AppError.NotFound
       else if fs.isDir (env.baseDir ++ comps) then
         match fs.dirListingHtml (env.baseDir ++ comps) with
         | .error e => .error e
         | .ok html =>
           .ok { statusCode := 200
                 statusText := str "OK"
                 headers := [(str "Content-Type", str "text/html; charset=utf-8")]
                 body := ResponseBody.text html }
       else if fs.isFile (env.baseDir ++ comps) then
         if ¬ env.allowed.any (fun pat => globMatch pat (pathToStr (env.baseDir ++ comps))) then
           .error .Forbidden
         else
           match FileDetails.new fs (env.baseDir ++ comps) env.chunkSize with
           | .error e => .error e
           | .ok fd =>
             .ok { statusCode := 200
                   statusText := str "OK"
                   headers := [(str "Content-Type", get_mime_type (env.baseDir ++ comps)),
                               (str "Content-Length", natDigits fd.size),
                               (str "Accept-Ranges", str "bytes"),
                               (str "Cache-Control", str "public, max-age=3600")]
                   body := ResponseBody.stream fd }
       else .error .NotFound) := by
    unfold routeAfterAuth
    rw [if_neg (by simp [hh, hs]), if_neg (by simp [hst]), if_neg (by simp [hget]), hnorm]
    simp [isPrefixOf_append_self]
  rw [hroute, hbase, if_neg (by rw [hex]; simp), hdir]
  simp only [Bool.false_eq_true, if_false, hfile, if_true]
  rw [if_neg (by rw [hmatch]; simp)]
  unfold FileDetails.new
  rw [hopen]
  rfl

theorem cl_not_prefixOf_ct (m : Str) :
    (str "Content-Length: ").isPrefixOf ((str "Content-Type" ++ str ": ") ++ m) = false := rfl

theorem cl_line_merge (s : Str) :
    (str "Content-Length" ++ str ": ") ++ s = str "Content-Length: " ++ s := by
  have h : str "Content-Length" ++ str ": " = str "Content-Length: " := by decide
  rw [h]

/-- C10: every successful streamed file response has a header block that
carries the `Content-Length` line twice — once inserted by `route_request`
into the response's header map and once appended by `send_response` from the
`FileDetails` size — and both lines carry the full file size. -/
theorem route_request_duplicate_content_length (req : Request) (env : ServerEnv) (fs : FS)
    (comps : List Str) (content : List Nat)
    (hget : req.method = str "GET")
    (hauth : authRejected req env = false)
    (hh : req.path ≠ str "/_health") (hs : req.path ≠ str "/_status")
    (hst : (str "/_static/").isPrefixOf req.path = false)
    (hnorm : normalize_path (pathComponents (stripLeadingSlash req.path)) = .ok comps)
    (hex : fs.pathExists (env.baseDir ++ comps) = true)
    (hdir : fs.isDir (env.baseDir ++ comps) = false)
    (hfile : fs.isFile (env.baseDir ++ comps) = true)
    (hmatch : env.allowed.any (fun pat => globMatch pat (pathToStr (env.baseDir ++ comps))) = true)
    (hopen : fs.openFile (env.baseDir ++ comps) = .ok content) :
    ∀ resp : Response, route_request req env fs = .ok resp →
      (responseHeaderLines resp).countP
          (fun l => (str "Content-Length: ").isPrefixOf l) = 2
      ∧ (∀ l ∈ responseHeaderLines resp,
          (str "Content-Length: ").isPrefixOf l = true →
          l = str "Content-Length: " ++ natDigits content.length) := by
  intro resp hresp
  have hok := route_request_file_ok req env fs comps content hget hauth hh hs hst hnorm
    hex hdir hfile hmatch hopen
  rw [hresp] at hok
  have hr : resp = _ := (Except.ok.inj hok)
  subst hr
  have hsv : (str "Content-Length: ").isPrefixOf (str "Server: hdl_sv/2.0.0") = false := by
    decide
  have hcn : (str "Content-Length: ").isPrefixOf (str "Connection: close") = false := by
    decide
  have har : (str "Content-Length: ").isPrefixOf
      ((str "Accept-Ranges" ++ str ": ") ++ str "bytes") = false := by decide
  have hcc : (str "Content-Length: ").isPrefixOf
      ((str "Cache-Control" ++ str ": ") ++ str "public, max-age=3600") = false := by decide
  constructor
  · simp only [responseHeaderLines, List.map_cons, List.map_nil]
    simp only [List.cons_append, List.nil_append, List.countP_cons, List.countP_nil]
    rw [cl_line_merge (natDigits content.length)]
    simp only [cl_not_prefixOf_ct (get_mime_type (env.baseDir ++ comps)),
      isPrefixOf_append_self, hsv, hcn, har, hcc]
    simp
  · intro l hl hpl
    simp only [responseHeaderLines, List.map_cons, List.map_nil, List.cons_append,
      List.nil_append, List.mem_cons, List.not_mem_nil, or_false] at hl
    rcases hl with rfl | rfl | rfl | rfl | rfl | rfl | rfl
    · exact absurd hpl (by rw [hsv]; simp)
    · exact absurd hpl (by rw [hcn]; simp)
    · rw [cl_not_prefixOf_ct (get_mime_type (env.baseDir ++ comps))] at hpl
      exact absurd hpl (by simp)
    · exact cl_line_merge (natDigits content.length)
    · exact absurd hpl (by rw [har]; simp)
    · exact absurd hpl (by rw [hcc]; simp)
    · rfl

/-- Witness for C10: serving `/srv/a.txt` (`hello`) produces a header block
whose lines include the `Content-Length: 5` line twice. -/
theorem route_request_duplicate_content_length_witness :
    (responseHeaderLines
        { statusCode := 200
          statusText := str "OK"
          headers := [(str "Content-Type", get_mime_type [str "srv", str "a.txt"]),
                      (str "Content-Length", natDigits (str "hello").length),
                      (str "Accept-Ranges", str "bytes"),
                      (str "Cache-Control", str "public, max-age=3600")]
          body := ResponseBody.stream
            { path := [str "srv", str "a.txt"]
              size := (str "hello").length
              chunkSize := 1024 } }).countP
        (fun l => (str "Content-Length: ").isPrefixOf l) = 2 :=
  (route_request_duplicate_content_length
    { method := str "GET", path := str "/a.txt", headers := [] }
    noAuthEnv twoFileFS [str "a.txt"] (str "hello") rfl (by decide) (by decide) (by decide)
    (by decide) (by decide) (by decide) (by decide) (by decide) (by decide) (by decide)
    { statusCode := 200
      statusText := str "OK"
      headers := [(str "Content-Type", get_mime_type [str "srv", str "a.txt"]),
                  (str "Content-Length", natDigits (str "hello").length),
                  (str "Accept-Ranges", str "bytes"),
                  (str "Cache-Control", str "public, max-age=3600")]
      body := ResponseBody.stream
        { path := [str "srv", str "a.txt"]
          size := (str "hello").length
          chunkSize := 1024 } }
    (by decide)).1

/-! ### Claim C7 — rate-limiter admission (`RateLimiter::check_rate_limit`,
`src/server.rs` lines 36-67) -/

structure ConnectionInfo where
  requestCount : Nat
  lastReset : Nat
  activeConnections : Nat
  deriving DecidableEq, Repr

structure RateLimiter where
  maxRequestsPerMinute : Nat
  maxConcurrentPerIp : Nat
  deriving DecidableEq, Repr

def mapLookup (m : List (Nat × ConnectionInfo)) (ip : Nat) : Option ConnectionInfo :=
  (m.find? (fun kv => kv.1 == ip)).map (·.2)

def mapInsert (m : List (Nat × ConnectionInfo)) (ip : Nat) (info : ConnectionInfo) :
    List (Nat × ConnectionInfo) :=
  match m with
  | [] => [(ip, info)]
  | kv :: rest => if kv.1 == ip then (ip, info) :: rest else kv :: mapInsert rest ip info

/-- The entry `connections.entry(ip).or_insert(...)` finds or creates. -/
def currentEntry (m : List (Nat × ConnectionInfo)) (ip now : Nat) : ConnectionInfo :=
  match mapLookup m ip with
  | some info => info
  | none => { requestCount := 0, lastReset := now, activeConnections := 0 }

/-- The entry after the window-reset step: the request counter is zeroed when
`now.duration_since(last_reset) >= Duration::from_secs(60)` (times in
nanoseconds; `duration_since` saturates at zero on a monotonic clock). -/
def windowedEntry (m : List (Nat × ConnectionInfo)) (ip now : Nat) : ConnectionInfo :=
  let e := currentEntry m ip now
  if now - e.lastReset ≥ 60 * 1000000000 then
    { e with requestCount := 0, lastReset := now }
  else e

/-- `RateLimiter::check_rate_limit` as a single atomic transition on the
connections map (the source holds the mutex for the whole body, so the
check and the increments happen in one critical section). -/
def check_rate_limit (rl : RateLimiter) (m : List (Nat × ConnectionInfo)) (ip now : Nat) :
    Bool × List (Nat × ConnectionInfo) :=
  let entry := windowedEntry m ip now
  if entry.activeConnections ≥ rl.maxConcurrentPerIp then
    (false, mapInsert m ip entry)
  else if entry.requestCount ≥ rl.maxRequestsPerMinute then
    (false, mapInsert m ip entry)
  else
    (true, mapInsert m ip
      { entry with
        requestCount := entry.requestCount + 1
        activeConnections := entry.activeConnections + 1 })

/-- C7 (amended): within the one critical section, admission is refused —
with neither counter incremented (only the window may have been reset) —
exactly when the concurrent cap or the per-minute cap is already reached
after the window step, and otherwise both the request counter and the active
connection counter are incremented and the call admits; the per-minute
counter is reset exactly when *at least* 60 seconds have elapsed since the
window start (so at exactly 60 seconds it *is* reset). -/
theorem check_rate_limit_admission (rl : RateLimiter)
    (m : List (Nat × ConnectionInfo)) (ip now : Nat) :
    ((windowedEntry m ip now).activeConnections ≥ rl.maxConcurrentPerIp ∨
        (windowedEntry m ip now).requestCount ≥ rl.maxRequestsPerMinute →
      check_rate_limit rl m ip now = (false, mapInsert m ip (windowedEntry m ip now)))
    ∧ ((windowedEntry m ip now).activeConnections < rl.maxConcurrentPerIp →
        (windowedEntry m ip now).requestCount < rl.maxRequestsPerMinute →
        check_rate_limit rl m ip now = (true, mapInsert m ip
          { windowedEntry m ip now with
            requestCount := (windowedEntry m ip now).requestCount + 1
            activeConnections := (windowedEntry m ip now).activeConnections + 1 }))
    ∧ (now - (currentEntry m ip now).lastReset ≥ 60 * 1000000000 →
        windowedEntry m ip now
          = { currentEntry m ip now with requestCount := 0, lastReset := now })
    ∧ (now - (currentEntry m ip now).lastReset < 60 * 1000000000 →
        windowedEntry m ip now = currentEntry m ip now) := by
  refine ⟨?_, ?_, ?_, ?_⟩
  · intro h
    unfold check_rate_limit
    rcases h with h | h
    · rw [if_pos h]
    · by_cases hc : (windowedEntry m ip now).activeConnections ≥ rl.maxConcurrentPerIp
      · rw [if_pos hc]
      · rw [if_neg hc, if_pos h]
  · intro h1 h2
    unfold check_rate_limit
    rw [if_neg (by omega), if_neg (by omega)]
  · intro h
    unfold windowedEntry
    rw [if_pos h]
  · intro h
    unfold windowedEntry
    rw [if_neg (by omega)]

/-- Witness for C7: with a per-minute cap of 2 already reached inside the
window, admission is refused and the state is unchanged. -/
theorem check_rate_limit_admission_witness :
    check_rate_limit { maxRequestsPerMinute := 2, maxConcurrentPerIp := 10 }
        [(1, { requestCount := 2, lastReset := 0, activeConnections := 0 })] 1 1000000000
      = (false, [(1, { requestCount := 2, lastReset := 0, activeConnections := 0 })]) :=
  (check_rate_limit_admission { maxRequestsPerMinute := 2, maxConcurrentPerIp := 10 }
    [(1, { requestCount := 2, lastReset := 0, activeConnections := 0 })] 1 1000000000).1
    (by decide)

/-- C7 counterexample: at *exactly* 60 seconds since the window start the
counter is already reset (the source compares with `>=`), so a client whose
per-minute cap was reached is admitted again, contrary to the claim that the
reset happens only after more than 60 seconds. -/
theorem check_rate_limit_resets_at_exactly_60s :
    check_rate_limit { maxRequestsPerMinute := 2, maxConcurrentPerIp := 10 }
        [(1, { requestCount := 2, lastReset := 0, activeConnections := 0 })] 1
        (60 * 1000000000)
      = (true, [(1, { requestCount := 1, lastReset := 60 * 1000000000,
                      activeConnections := 1 })]) := by decide

/-! ### Claim C8 — panic containment (`handle_client_with_stats`,
`src/server.rs` lines 403-449) -/

structure ServerStats where
  totalRequests : Nat
  successfulRequests : Nat
  errorRequests : Nat
  bytesServed : Nat
  deriving DecidableEq, Repr

/-- `ServerStats::record_request` (`src/server.rs` lines 108-124); the `u64`
counters wrap. -/
def record_request (s : ServerStats) (success : Bool) (bytes : Nat) : ServerStats :=
  { totalRequests := wrap64 (s.totalRequests + 1)
    successfulRequests :=
      if success then wrap64 (s.successfulRequests + 1) else s.successfulRequests
    errorRequests := if success then s.errorRequests else wrap64 (s.errorRequests + 1)
    bytesServed := wrap64 (s.bytesServed + bytes) }

/-- How the wrapped `handle_client` body finished: normally, or by a panic
that `catch_unwind` turned into a value at the handler boundary. -/
inductive HandlerOutcome where
  | normal
  | panicked
  deriving DecidableEq, Repr

/-- `handle_client_with_stats` (`src/server.rs` lines 403-449): the handler
body runs inside `catch_unwind`; `success = result.is_ok()`, the statistics
record the outcome (`bytes_sent` is the constant 0 in the source), and a
caught panic is reported as `InternalServerError`.  Totality of this function
is the embedded form of "the panic is caught and does not escape". -/
def handle_client_with_stats (outcome : HandlerOutcome) (stats : ServerStats) :
    ServerStats × Except AppError Unit :=
  let success := match outcome with
    | HandlerOutcome.normal => true
    | HandlerOutcome.panicked => false
  let stats2 := record_request stats success 0
  (stats2,
   match outcome with
   | HandlerOutcome.normal => .ok ()
   | HandlerOutcome.panicked =>
     .error (.InternalServerError (str "Client handler panicked")))

/-- The worker loop (`src/server.rs` lines 213-233) runs queued jobs to
completion one after another; because each job catches its own panic, the
loop's behaviour is a plain fold over the job outcomes. -/
def worker_run (jobs : List HandlerOutcome) (stats : ServerStats) : ServerStats :=
  match jobs with
  | [] => stats
  | j :: rest => worker_run rest (handle_client_with_stats j stats).1

/-- C8: a panic in the connection handler is caught at the handler boundary:
the call returns (it does not re-raise), reports
`InternalServerError("Client handler panicked")`, records the request as
failed (total and error counters up, success counter untouched), and the
worker goes on to execute the remaining jobs exactly as it would from the
updated statistics — no other connection is affected. -/
theorem handle_client_with_stats_panic_contained (stats : ServerStats)
    (rest : List HandlerOutcome) :
    (handle_client_with_stats HandlerOutcome.panicked stats).2
        = .error (.InternalServerError (str "Client handler panicked"))
    ∧ (handle_client_with_stats HandlerOutcome.panicked stats).1.totalRequests
        = wrap64 (stats.totalRequests + 1)
    ∧ (handle_client_with_stats HandlerOutcome.panicked stats).1.errorRequests
        = wrap64 (stats.errorRequests + 1)
    ∧ (handle_client_with_stats HandlerOutcome.panicked stats).1.successfulRequests
        = stats.successfulRequests
    ∧ worker_run (HandlerOutcome.panicked :: rest) stats
        = worker_run rest (handle_client_with_stats HandlerOutcome.panicked stats).1 :=
  ⟨rfl, rfl, rfl, rfl, rfl⟩

/-! ### Claim C9 — directory listing order
(`generate_directory_listing`, `src/fs.rs` lines 20-47) -/

/-- Byte-wise lexicographic strict order on strings (`OsStr`/`str` `Ord`). -/
def strLt : Str → Str → Bool
  | [], [] => false
  | [], _ :: _ => true
  | _ :: _, [] => false
  | a :: as, b :: bs => if a < b then true else if a > b then false else strLt as bs

/-- `Path`/`PathBuf` `Ord`: lexicographic over components, each compared as
an `OsStr`. -/
def pathLt : List Str → List Str → Bool
  | [], [] => false
  | [], _ :: _ => true
  | _ :: _, [] => false
  | a :: as, b :: bs => if strLt a b then true else if strLt b a then false else pathLt as bs

def pathLe (p q : List Str) : Bool := !(pathLt q p)

/-- Stable insertion of one element into a sorted list. -/
def insertSorted {α : Type} (le : α → α → Bool) (x : α) : List α → List α
  | [] => [x]
  | y :: ys => if le x y then x :: y :: ys else y :: insertSorted le x ys

/-- A stable comparison sort.  `Vec::sort` is a stable sort by `Ord`;
`pathLt` is trichotomous (two paths that compare equal are the same list), so
any stable sort — this insertion sort included — computes the same
permutation the Rust standard library's merge sort does. -/
def insertionSort {α : Type} (le : α → α → Bool) : List α → List α
  | [] => []
  | x :: xs => insertSorted le x (insertionSort le xs)

/-- The entry-collection and ordering core of `generate_directory_listing`:
`read_dir` results arrive in arbitrary order, `Err` entries are skipped with
a warning (`none` here), the collected paths are sorted with
`entries.sort()`, and the rows are rendered in that order. -/
def generate_directory_listing_entries (results : List (Option (List Str))) :
    List (List Str) :=
  insertionSort pathLe (results.filterMap id)

/-- Adjacent-pairs sortedness under a boolean relation. -/
def sortedBy {α : Type} (le : α → α → Bool) : List α → Bool
  | [] => true
  | [_] => true
  | x :: y :: rest => le x y && sortedBy le (y :: rest)

/-- The ordering claimed by the spec: every directory precedes every file. -/
def dirsBeforeFiles (isDir : List Str → Bool) : List (List Str) → Bool
  | [] => true
  | x :: xs => (isDir x || xs.all (fun y => !isDir y)) && dirsBeforeFiles isDir xs

def toLowerCh (c : Nat) : Nat := if 65 ≤ c ∧ c ≤ 90 then c + 32 else c

/-- Case-insensitive alphabetical comparison (the spec's claimed tie order
within each group). -/
def ciLe (a b : Str) : Bool := !(strLt (b.map toLowerCh) (a.map toLowerCh))

theorem strLt_asymm : ∀ a b : Str, strLt a b = true → strLt b a = false := by
  intro a
  induction a with
  | nil =>
    intro b h
    cases b with
    | nil => simpa [strLt] using h
    | cons y ys => rfl
  | cons x xs ih =>
    intro b h
    cases b with
    | nil => simp [strLt] at h
    | cons y ys =>
      simp only [strLt] at h ⊢
      by_cases h1 : x < y
      · rw [if_neg (by omega), if_pos (by omega)]
      · rw [if_neg h1] at h
        by_cases h2 : x > y
        · rw [if_pos h2] at h
          exact absurd h (by simp)
        · rw [if_neg h2] at h
          have hxy : x = y := by omega
          subst hxy
          rw [if_neg (by omega), if_neg (by omega)]
          exact ih ys h

theorem pathLt_asymm : ∀ a b : List Str, pathLt a b = true → pathLt b a = false := by
  intro a
  induction a with
  | nil =>
    intro b h
    cases b with
    | nil => simpa [pathLt] using h
    | cons y ys => rfl
  | cons x xs ih =>
    intro b h
    cases b with
    | nil => simp [pathLt] at h
    | cons y ys =>
      simp only [pathLt] at h ⊢
      by_cases h1 : strLt x y = true
      · rw [if_neg (by rw [strLt_asymm x y h1]; simp), if_pos h1]
      · rw [if_neg h1] at h
        by_cases h2 : strLt y x = true
        · rw [if_pos h2] at h
          exact absurd h (by simp)
        · rw [if_neg h2] at h
          rw [if_neg h2, if_neg h1]
          exact ih ys h

theorem pathLe_total (a b : List Str) : (pathLe a b || pathLe b a) = true := by
  unfold pathLe
  by_cases h : pathLt b a = true
  · rw [pathLt_asymm b a h]
    simp
  · simp only [Bool.not_eq_true] at h
    rw [h]
    simp

theorem insertSorted_head {α : Type} (le : α → α → Bool) (x y : α) (ys : List α) :
    insertSorted le x (y :: ys) = x :: y :: ys
    ∨ insertSorted le x (y :: ys) = y :: insertSorted le x ys := by
  by_cases h : le x y = true
  · left
    simp only [insertSorted, if_pos h]
  · right
    simp only [insertSorted, if_neg h]

theorem insertSorted_sortedBy (le : List Str → List Str → Bool)
    (htot : ∀ a b, (le a b || le b a) = true) (x : List Str) :
    ∀ l, sortedBy le l = true → sortedBy le (insertSorted le x l) = true := by
  intro l
  induction l with
  | nil => intro _; rfl
  | cons y ys ih =>
    intro hsorted
    by_cases hxy : le x y = true
    · unfold insertSorted
      rw [if_pos hxy]
      unfold sortedBy
      rw [hxy, hsorted]
      rfl
    · have hyx : le y x = true := by
        have := htot x y
        simp only [Bool.or_eq_true] at this
        rcases this with h | h
        · exact absurd h hxy
        · exact h
      unfold insertSorted
      rw [if_neg hxy]
      cases ys with
      | nil =>
        unfold insertSorted sortedBy
        rw [hyx]
        rfl
      | cons z zs =>
        have hyz : le y z = true := by
          unfold sortedBy at hsorted
          simp only [Bool.and_eq_true] at hsorted
          exact hsorted.1
        have hzs : sortedBy le (z :: zs) = true := by
          unfold sortedBy at hsorted
          simp only [Bool.and_eq_true] at hsorted
          exact hsorted.2
        have hins := ih hzs
        rcases insertSorted_head le x z zs with hcase | hcase
        · rw [hcase]
          rw [hcase] at hins
          show (le y x && sortedBy le (x :: z :: zs)) = true
          rw [hyx, hins]
          rfl
        · rw [hcase]
          rw [hcase] at hins
          show (le y z && sortedBy le (z :: insertSorted le x zs)) = true
          rw [hyz, hins]
          rfl

theorem insertSorted_perm {α : Type} (le : α → α → Bool) (x : α) :
    ∀ l : List α, List.Perm (insertSorted le x l) (x :: l) := by
  intro l
  induction l with
  | nil => simp [insertSorted]
  | cons y ys ih =>
    unfold insertSorted
    by_cases h : le x y = true
    · rw [if_pos h]
    · rw [if_neg h]
      exact List.Perm.trans (List.Perm.cons y ih) (List.Perm.swap x y ys)

theorem insertionSort_sortedBy (le : List Str → List Str → Bool)
    (htot : ∀ a b, (le a b || le b a) = true) :
    ∀ l, sortedBy le (insertionSort le l) = true := by
  intro l
  induction l with
  | nil => rfl
  | cons x xs ih =>
    simp only [insertionSort]
    exact insertSorted_sortedBy le htot x (insertionSort le xs) ih

theorem insertionSort_perm {α : Type} (le : α → α → Bool) :
    ∀ l : List α, List.Perm (insertionSort le l) l := by
  intro l
  induction l with
  | nil => rfl
  | cons x xs ih =>
    simp only [insertionSort]
    exact List.Perm.trans (insertSorted_perm le x (insertionSort le xs))
      (List.Perm.cons x ih)

/-- C9 (amended): the listing enumerates exactly the successfully read
immediate children — an unreadable entry is skipped without affecting the
rest — and orders them by `entries.sort()`, i.e. byte-lexicographically by
full path, case-sensitively and with no directories-before-files grouping. -/
theorem generate_directory_listing_order (results : List (Option (List Str))) :
    generate_directory_listing_entries results
        = insertionSort pathLe (results.filterMap id)
    ∧ sortedBy pathLe (generate_directory_listing_entries results) = true
    ∧ List.Perm (generate_directory_listing_entries results) (results.filterMap id)
    ∧ ∀ xs ys : List (Option (List Str)),
        generate_directory_listing_entries (xs ++ none :: ys)
          = generate_directory_listing_entries (xs ++ ys) := by
  refine ⟨rfl, ?_, ?_, ?_⟩
  · exact insertionSort_sortedBy pathLe pathLe_total (results.filterMap id)
  · exact insertionSort_perm pathLe (results.filterMap id)
  · intro xs ys
    unfold generate_directory_listing_entries
    congr 1
    simp [List.filterMap_append]

/-- C9 counterexample: for a directory `/root` holding the regular file
`a.txt` and the subdirectory `b`, the rendered order puts the *file first*
(plain byte order of the full paths), violating directories-before-files;
and for the two files `B.txt` and `a.txt` the rendered order is `B.txt`
before `a.txt`, violating case-insensitive alphabetical order within the
file group. -/
theorem generate_directory_listing_not_dirs_first :
    generate_directory_listing_entries
        [some [str "root", str "b"], some [str "root", str "a.txt"]]
      = [[str "root", str "a.txt"], [str "root", str "b"]]
    ∧ dirsBeforeFiles (fun p => p == [str "root", str "b"])
        (generate_directory_listing_entries
          [some [str "root", str "b"], some [str "root", str "a.txt"]]) = false
    ∧ generate_directory_listing_entries
        [some [str "root", str "a.txt"], some [str "root", str "B.txt"]]
      = [[str "root", str "B.txt"], [str "root", str "a.txt"]]
    ∧ sortedBy (fun p q => ciLe (p.getLastD []) (q.getLastD []))
        (generate_directory_listing_entries
          [some [str "root", str "a.txt"], some [str "root", str "B.txt"]]) = false := by
  refine ⟨by decide, by decide, by decide, by decide⟩
